import Mathlib

/-!
Verification development for the Feishu channel plugin core
(`src/feishu/ws-proto.ts`, `src/feishu/ws-data-cache.ts`,
`src/feishu/events.ts`, `src/feishu/outbound.ts`).

Modelling conventions (shallow embedding):
* Byte sequences (`Uint8Array`) are `List Nat`.
* JavaScript strings that only cross the wire boundary (frame header
  keys/values, payload metadata) are modelled by their UTF-8 byte
  sequences (`List Nat`); `TextEncoder`/`TextDecoder` are mutually
  inverse on that representation, so they are the identity here.
* `bigint` values (`SeqID`, `LogID`) are `Nat` (unsigned, unbounded,
  which covers the 64-bit unsigned range exactly).
* The JS numbers `service`/`method` are modelled as `Nat`; protobuf
  varints are unsigned on the wire.
* Fallible code (JS `throw`) returns `Option`/`Except`; `none` or
  `.error` marks the exception path.
* External runtime primitives the source calls (`JSON.parse`,
  `crypto` SHA-256, AES decryption, `JSON.stringify`+base64) are
  parameters of the corresponding definitions; theorems quantify over
  them, and concrete sample instances are used for closed evaluations.
-/

/-! ## Frame codec (`src/feishu/ws-proto.ts`) -/

/-- Wire header entry: `{key, value}` with both sides UTF-8 strings
(modelled as byte lists). Mirrors `WsHeader` in `ws-proto.ts`. -/
structure WsHeader where
  key : List Nat
  value : List Nat
deriving DecidableEq, Repr

/-- Mirrors `WsFrame` in `ws-proto.ts`.  Optional TS fields are
`Option`; `headers` is `Option` because the TS field may be absent
(`headers?`), while `decodeFrame` always initializes it to `[]`. -/
structure WsFrame where
  SeqID : Nat
  LogID : Nat
  service : Nat
  method : Nat
  headers : Option (List WsHeader)
  payloadEncoding : Option (List Nat)
  payloadType : Option (List Nat)
  payload : Option (List Nat)
  LogIDNew : Option (List Nat)
deriving DecidableEq, Repr

/-- Mirrors `encodeVarint`: protobuf unsigned varint, 7 data bits per
byte, low groups first, continuation bit `0x80`.
`(remaining & 0x7f) | 0x80 = remaining % 128 + 128` and
`remaining >>= 7n` is division by 128. -/
def encodeVarint (value : Nat) : List Nat :=
  if _h : value < 128 then [value]
  else (value % 128 + 128) :: encodeVarint (value / 128)
termination_by value
decreasing_by omega

/-- Mirrors `decodeVarint`: accumulates `(byte & 0x7f) << shift` until a
byte without the continuation bit; running off the buffer is the
`varint overflow` throw (`none`).  The list argument is the buffer
suffix starting at the read offset; the returned list is the suffix at
the new offset. -/
def decodeVarint : List Nat → Option (Nat × List Nat)
  | [] => none
  | b :: rest =>
    if b &&& 128 = 0 then some (b &&& 127, rest)
    else
      match decodeVarint rest with
      | none => none
      | some (v, rest2) => some ((b &&& 127) + 128 * v, rest2)

/-- Mirrors `encodeTag`: varint of `(fieldNumber << 3) | wireType`. -/
def encodeTag (fieldNumber wireType : Nat) : List Nat :=
  encodeVarint ((fieldNumber <<< 3) ||| wireType)

/-- Mirrors `readLengthDelimited`: varint length prefix, then that many
bytes; a length reaching past the buffer is the `length out of range`
throw (`none`). -/
def readLengthDelimited (buffer : List Nat) : Option (List Nat × List Nat) :=
  match decodeVarint buffer with
  | none => none
  | some (len, rest) =>
    if len ≤ rest.length then some (rest.take len, rest.drop len) else none

/-- Mirrors `encodeHeader`: nested fields 1 = key, 2 = value, both
length-delimited. -/
def encodeHeader (header : WsHeader) : List Nat :=
  encodeTag 1 2 ++ encodeVarint header.key.length ++ header.key
    ++ encodeTag 2 2 ++ encodeVarint header.value.length ++ header.value

theorem decodeVarint_shrinks :
    ∀ (buf : List Nat) (v : Nat) (rest : List Nat),
      decodeVarint buf = some (v, rest) → rest.length < buf.length := by
  intro buf
  induction buf with
  | nil => intro v rest h; simp [decodeVarint] at h
  | cons b tl ih =>
    intro v rest h
    simp only [decodeVarint] at h
    by_cases hb : b &&& 128 = 0
    · simp [hb] at h
      simp [← h.2]
    · simp [hb] at h
      rcases h2 : decodeVarint tl with _ | ⟨v2, rest2⟩
      · rw [h2] at h; simp at h
      · rw [h2] at h
        simp at h
        have := ih v2 rest2 h2
        simp [← h.2]
        omega

theorem readLengthDelimited_shrinks :
    ∀ (buf : List Nat) (field rest : List Nat),
      readLengthDelimited buf = some (field, rest) → rest.length < buf.length := by
  intro buf field rest h
  simp only [readLengthDelimited] at h
  rcases h2 : decodeVarint buf with _ | ⟨len, rest1⟩
  · rw [h2] at h; simp at h
  · rw [h2] at h
    have h3 := decodeVarint_shrinks buf len rest1 h2
    by_cases hle : len ≤ rest1.length
    · simp [hle] at h
      have : rest.length ≤ rest1.length := by
        rw [← h.2]
        simp
      omega
    · simp [hle] at h

/-- Result of one iteration of a decode `while` loop: `done` is a
return or `break` out of the loop (carrying the loop's final result,
`none` for a throw), `cont` is `continue` at the remaining buffer with
the updated loop state. -/
inductive StepRes (α : Type) where
  | done (result : Option α)
  | cont (rest : List Nat) (state : α)
deriving Repr

/-- One iteration of the `while` loop of `decodeHeader`; the `WsHeader`
argument carries the current `key`/`value` loop state.  Note the source
checks wire type 2 before wire type 0, and any other wire type breaks
the loop. -/
def headerStep (buf : List Nat) (st : WsHeader) : StepRes WsHeader :=
  match buf with
  | [] => .done (some st)
  | _ :: _ =>
    match decodeVarint buf with
    | none => .done none
    | some (tag, rest) =>
      if tag &&& 7 = 2 then
        match readLengthDelimited rest with
        | none => .done none
        | some (field, rest2) =>
          if tag >>> 3 = 1 then .cont rest2 ⟨field, st.value⟩
          else if tag >>> 3 = 2 then .cont rest2 ⟨st.key, field⟩
          else .cont rest2 st
      else if tag &&& 7 = 0 then
        match decodeVarint rest with
        | none => .done none
        | some (_, rest2) => .cont rest2 st
      else .done (some st)

theorem headerStep_shrinks (buf : List Nat) (st : WsHeader) (rest : List Nat)
    (st2 : WsHeader) (h : headerStep buf st = .cont rest st2) :
    rest.length < buf.length := by
  match buf with
  | [] => simp [headerStep] at h
  | b :: tl =>
    simp only [headerStep] at h
    rcases hdv : decodeVarint (b :: tl) with _ | ⟨tag, rest1⟩ <;> rw [hdv] at h <;> dsimp only at h
    · simp at h
    · have h1 := decodeVarint_shrinks _ _ _ hdv
      by_cases h7 : tag &&& 7 = 2
      · rw [if_pos h7] at h
        rcases hrl : readLengthDelimited rest1 with _ | ⟨field, rest2⟩ <;> rw [hrl] at h <;> dsimp only at h
        · simp at h
        · have h2 := readLengthDelimited_shrinks _ _ _ hrl
          by_cases hf1 : tag >>> 3 = 1
          · rw [if_pos hf1] at h; cases h; omega
          · rw [if_neg hf1] at h
            by_cases hf2 : tag >>> 3 = 2
            · rw [if_pos hf2] at h; cases h; omega
            · rw [if_neg hf2] at h; cases h; omega
      · rw [if_neg h7] at h
        by_cases h0 : tag &&& 7 = 0
        · rw [if_pos h0] at h
          rcases hdv2 : decodeVarint rest1 with _ | ⟨v2, rest2⟩ <;> rw [hdv2] at h <;> dsimp only at h
          · simp at h
          · have h2 := decodeVarint_shrinks _ _ _ hdv2
            cases h
            omega
        · rw [if_neg h0] at h
          simp at h

/-- Mirrors the `while` loop of `decodeHeader`, iterating
`headerStep`. -/
def decodeHeaderLoop (buf : List Nat) (st : WsHeader) : Option WsHeader :=
  match _h : headerStep buf st with
  | .done r => r
  | .cont rest st2 => decodeHeaderLoop rest st2
termination_by buf.length
decreasing_by
  exact headerStep_shrinks _ _ _ _ _h

/-- Mirrors `decodeHeader`: runs the loop with empty initial key and
value. -/
def decodeHeader (buffer : List Nat) : Option WsHeader :=
  decodeHeaderLoop buffer ⟨[], []⟩

/-- The frame value `decodeFrame` starts from: zero ids, zero
service/method, empty header list, all optional fields unset. -/
def initFrame : WsFrame :=
  ⟨0, 0, 0, 0, some [], none, none, none, none⟩

/-- One iteration of the `while` loop of `decodeFrame`; the frame
argument is the partially filled result.  The source checks wire type 0
(varint fields 1-4) before wire type 2 (length-delimited fields 5-9);
any other wire type breaks the loop.  A throw from `decodeVarint`,
`readLengthDelimited` or the nested `decodeHeader` propagates
(`done none`). -/
def frameStep (buf : List Nat) (frame : WsFrame) : StepRes WsFrame :=
  match buf with
  | [] => .done (some frame)
  | _ :: _ =>
    match decodeVarint buf with
    | none => .done none
    | some (tag, rest) =>
      if tag &&& 7 = 0 then
        match decodeVarint rest with
        | none => .done none
        | some (value, rest2) =>
          let frame := if tag >>> 3 = 1 then { frame with SeqID := value } else frame
          let frame := if tag >>> 3 = 2 then { frame with LogID := value } else frame
          let frame := if tag >>> 3 = 3 then { frame with service := value } else frame
          let frame := if tag >>> 3 = 4 then { frame with method := value } else frame
          .cont rest2 frame
      else if tag &&& 7 = 2 then
        match readLengthDelimited rest with
        | none => .done none
        | some (field, rest2) =>
          if tag >>> 3 = 5 then
            match decodeHeader field with
            | none => .done none
            | some hd =>
              .cont rest2
                (match frame.headers with
                 | some hs => { frame with headers := some (hs ++ [hd]) }
                 | none => frame)
          else if tag >>> 3 = 6 then
            .cont rest2 { frame with payloadEncoding := some field }
          else if tag >>> 3 = 7 then
            .cont rest2 { frame with payloadType := some field }
          else if tag >>> 3 = 8 then
            .cont rest2 { frame with payload := some field }
          else if tag >>> 3 = 9 then
            .cont rest2 { frame with LogIDNew := some field }
          else .cont rest2 frame
      else .done (some frame)

theorem frameStep_shrinks (buf : List Nat) (st : WsFrame) (rest : List Nat)
    (st2 : WsFrame) (h : frameStep buf st = .cont rest st2) :
    rest.length < buf.length := by
  match buf with
  | [] => simp [frameStep] at h
  | b :: tl =>
    simp only [frameStep] at h
    rcases hdv : decodeVarint (b :: tl) with _ | ⟨tag, rest1⟩ <;> rw [hdv] at h <;> dsimp only at h
    · simp at h
    · have h1 := decodeVarint_shrinks _ _ _ hdv
      by_cases h0 : tag &&& 7 = 0
      · rw [if_pos h0] at h
        rcases hdv2 : decodeVarint rest1 with _ | ⟨v2, rest2⟩ <;> rw [hdv2] at h <;> dsimp only at h
        · simp at h
        · have h2 := decodeVarint_shrinks _ _ _ hdv2
          cases h
          omega
      · rw [if_neg h0] at h
        by_cases h7 : tag &&& 7 = 2
        · rw [if_pos h7] at h
          rcases hrl : readLengthDelimited rest1 with _ | ⟨field, rest2⟩ <;> rw [hrl] at h <;> dsimp only at h
          · simp at h
          · have h2 := readLengthDelimited_shrinks _ _ _ hrl
            by_cases hf5 : tag >>> 3 = 5
            · rw [if_pos hf5] at h
              rcases hdh : decodeHeader field with _ | hd <;> rw [hdh] at h <;> dsimp only at h
              · simp at h
              · cases h
                omega
            · rw [if_neg hf5] at h
              by_cases hf6 : tag >>> 3 = 6
              · rw [if_pos hf6] at h; cases h; omega
              · rw [if_neg hf6] at h
                by_cases hf7 : tag >>> 3 = 7
                · rw [if_pos hf7] at h; cases h; omega
                · rw [if_neg hf7] at h
                  by_cases hf8 : tag >>> 3 = 8
                  · rw [if_pos hf8] at h; cases h; omega
                  · rw [if_neg hf8] at h
                    by_cases hf9 : tag >>> 3 = 9
                    · rw [if_pos hf9] at h; cases h; omega
                    · rw [if_neg hf9] at h; cases h; omega
        · rw [if_neg h7] at h
          simp at h

/-- Mirrors the `while` loop of `decodeFrame`, iterating `frameStep`. -/
def decodeFrameLoop (buf : List Nat) (frame : WsFrame) : Option WsFrame :=
  match _h : frameStep buf frame with
  | .done r => r
  | .cont rest st2 => decodeFrameLoop rest st2
termination_by buf.length
decreasing_by
  exact frameStep_shrinks _ _ _ _ _h

/-- Mirrors `decodeFrame`. -/
def decodeFrame (buffer : List Nat) : Option WsFrame :=
  decodeFrameLoop buffer initFrame

/-- JS truthiness on an optional string: `undefined` and the empty
string are falsy.  `encodeFrame` guards the optional string fields
(`payloadEncoding`, `payloadType`, `LogIDNew`) and the header list
(`frame.headers?.length`) this way. -/
def jsStrSet (o : Option (List Nat)) : Bool :=
  match o with
  | none => false
  | some s => s ≠ []

/-- Bytes pushed for one header in the `for` loop of `encodeFrame`:
field-5 tag, length prefix, encoded header. -/
def headerBlock (h : WsHeader) : List Nat :=
  encodeTag 5 2 ++ encodeVarint (encodeHeader h).length ++ encodeHeader h

/-- Bytes of the header list in `encodeFrame`: emitted only when the
list is present and nonempty (`frame.headers?.length` is truthy). -/
def encHeadersBlock (ho : Option (List WsHeader)) : List Nat :=
  if (ho.getD []).length ≠ 0 then (ho.getD []).flatMap headerBlock else []

/-- Bytes of one optional-string field in `encodeFrame` (fields 6, 7
and 9): emitted only when the string is present and nonempty (JS
truthiness on `frame.payloadEncoding` etc.). -/
def encOptStrBlock (fieldNumber : Nat) (o : Option (List Nat)) : List Nat :=
  match o with
  | some s => if s ≠ [] then encodeTag fieldNumber 2 ++ encodeVarint s.length ++ s else []
  | none => []

/-- Bytes of the payload (field 8) in `encodeFrame`: emitted whenever
the `Uint8Array` is present (a byte array is truthy in JS even when
empty). -/
def encPayloadBlock (o : Option (List Nat)) : List Nat :=
  match o with
  | some p => encodeTag 8 2 ++ encodeVarint p.length ++ p
  | none => []

/-- Mirrors `encodeFrame`: fields 1-4 always encoded as varints, then
the conditional length-delimited fields 5-9 in source order. -/
def encodeFrame (frame : WsFrame) : List Nat :=
  encodeTag 1 0 ++ encodeVarint frame.SeqID
    ++ encodeTag 2 0 ++ encodeVarint frame.LogID
    ++ encodeTag 3 0 ++ encodeVarint frame.service
    ++ encodeTag 4 0 ++ encodeVarint frame.method
    ++ encHeadersBlock frame.headers
    ++ encOptStrBlock 6 frame.payloadEncoding
    ++ encOptStrBlock 7 frame.payloadType
    ++ encPayloadBlock frame.payload
    ++ encOptStrBlock 9 frame.LogIDNew

/-! ## Round-trip lemmas for the frame codec -/

theorem and127_eq_mod (x : Nat) : x &&& 127 = x % 128 := by
  have h1 : (127 : Nat) = 2 ^ 7 - 1 := by norm_num
  rw [h1, Nat.and_pow_two_sub_one_eq_mod]

theorem and128_of_lt (x : Nat) (h : x < 128) : x &&& 128 = 0 := by
  have h2 := Nat.and_two_pow x 7
  norm_num at h2
  rw [h2, Nat.testBit_eq_false_of_lt (show x < 2 ^ 7 by omega)]
  rfl

theorem and128_of_hi (x : Nat) : (x % 128 + 128) &&& 128 = 128 := by
  have h2 := Nat.and_two_pow (x % 128 + 128) 7
  norm_num at h2
  rw [h2, Nat.testBit_to_div_mod]
  have h3 : (x % 128 + 128) / 2 ^ 7 = 1 := by omega
  simp [h3]

theorem encodeVarint_small (v : Nat) (h : v < 128) : encodeVarint v = [v] := by
  rw [encodeVarint, dif_pos h]

theorem decodeVarint_small (b : Nat) (hb : b < 128) (rest : List Nat) :
    decodeVarint (b :: rest) = some (b, rest) := by
  have h0 := and128_of_lt b hb
  simp only [decodeVarint, h0, if_pos, and127_eq_mod, Nat.mod_eq_of_lt hb]

theorem decodeVarint_encodeVarint (v : Nat) :
    ∀ rest : List Nat, decodeVarint (encodeVarint v ++ rest) = some (v, rest) := by
  induction v using Nat.strong_induction_on with
  | _ v ih =>
    intro rest
    rw [encodeVarint]
    by_cases h : v < 128
    · rw [dif_pos h, List.singleton_append, decodeVarint_small v h]
    · rw [dif_neg h, List.cons_append]
      have hne : ¬ ((v % 128 + 128) &&& 128 = 0) := by rw [and128_of_hi]; omega
      simp only [decodeVarint, hne, if_neg, if_false,
        ih (v / 128) (by omega) rest, and127_eq_mod]
      have hm : (v % 128 + 128) % 128 = v % 128 := by omega
      rw [hm]
      simp only [Option.some.injEq, Prod.mk.injEq]
      exact ⟨by omega, trivial⟩

theorem readLengthDelimited_enc (bs rest : List Nat) :
    readLengthDelimited (encodeVarint bs.length ++ (bs ++ rest)) = some (bs, rest) := by
  simp only [readLengthDelimited, decodeVarint_encodeVarint bs.length (bs ++ rest)]
  rw [if_pos (by simp)]
  rw [List.take_left, List.drop_left]

theorem decodeHeaderLoop_done (buf : List Nat) (st : WsHeader) (r : Option WsHeader)
    (h : headerStep buf st = .done r) : decodeHeaderLoop buf st = r := by
  rw [decodeHeaderLoop]
  split
  · rename_i r2 h2
    rw [h] at h2
    cases h2
    rfl
  · rename_i rest st2 h2
    rw [h] at h2
    cases h2

theorem decodeHeaderLoop_cont (buf : List Nat) (st : WsHeader) (rest : List Nat)
    (st2 : WsHeader) (h : headerStep buf st = .cont rest st2) :
    decodeHeaderLoop buf st = decodeHeaderLoop rest st2 := by
  rw [decodeHeaderLoop]
  split
  · rename_i r2 h2
    rw [h] at h2
    cases h2
  · rename_i rest3 st3 h2
    rw [h] at h2
    cases h2
    rfl

theorem decodeFrameLoop_done (buf : List Nat) (st : WsFrame) (r : Option WsFrame)
    (h : frameStep buf st = .done r) : decodeFrameLoop buf st = r := by
  rw [decodeFrameLoop]
  split
  · rename_i r2 h2
    rw [h] at h2
    cases h2
    rfl
  · rename_i rest st2 h2
    rw [h] at h2
    cases h2

theorem decodeFrameLoop_cont (buf : List Nat) (st : WsFrame) (rest : List Nat)
    (st2 : WsFrame) (h : frameStep buf st = .cont rest st2) :
    decodeFrameLoop buf st = decodeFrameLoop rest st2 := by
  rw [decodeFrameLoop]
  split
  · rename_i r2 h2
    rw [h] at h2
    cases h2
  · rename_i rest3 st3 h2
    rw [h] at h2
    cases h2
    rfl

theorem headerStep_len (t : Nat) (ht : t < 128) (ht2 : t &&& 7 = 2) (bs rest : List Nat)
    (st : WsHeader) :
    headerStep (t :: (encodeVarint bs.length ++ (bs ++ rest))) st =
      (if t >>> 3 = 1 then .cont rest ⟨bs, st.value⟩
       else if t >>> 3 = 2 then .cont rest ⟨st.key, bs⟩
       else .cont rest st) := by
  simp only [headerStep, decodeVarint_small t ht, ht2, readLengthDelimited_enc, if_pos]

theorem headerStep_key (bs rest : List Nat) (st : WsHeader) :
    headerStep (10 :: (encodeVarint bs.length ++ (bs ++ rest))) st =
      .cont rest ⟨bs, st.value⟩ := by
  rw [headerStep_len 10 (by norm_num) (by decide),
    if_pos (show (10 : Nat) >>> 3 = 1 by decide)]

theorem headerStep_value (bs rest : List Nat) (st : WsHeader) :
    headerStep (18 :: (encodeVarint bs.length ++ (bs ++ rest))) st =
      .cont rest ⟨st.key, bs⟩ := by
  rw [headerStep_len 18 (by norm_num) (by decide),
    if_neg (show ¬ (18 : Nat) >>> 3 = 1 by decide),
    if_pos (show (18 : Nat) >>> 3 = 2 by decide)]

theorem decodeHeader_encodeHeader (hd : WsHeader) :
    decodeHeader (encodeHeader hd) = some hd := by
  obtain ⟨k, v⟩ := hd
  have t12 : encodeTag 1 2 = [10] := by
    rw [encodeTag, encodeVarint_small _ (by decide)]
    decide
  have t22 : encodeTag 2 2 = [18] := by
    rw [encodeTag, encodeVarint_small _ (by decide)]
    decide
  have hb : encodeHeader ⟨k, v⟩ =
      10 :: (encodeVarint k.length ++ (k ++ (18 :: (encodeVarint v.length ++ (v ++ []))))) := by
    rw [encodeHeader, t12, t22]
    simp [List.append_assoc]
  rw [decodeHeader, hb,
    decodeHeaderLoop_cont _ _ _ _ (headerStep_key k _ ⟨[], []⟩),
    decodeHeaderLoop_cont _ _ _ _ (headerStep_value v [] _)]
  exact decodeHeaderLoop_done [] ⟨k, v⟩ (some ⟨k, v⟩) rfl

theorem frameStep_varint (t : Nat) (ht : t < 128) (ht0 : t &&& 7 = 0) (v : Nat)
    (rest : List Nat) (st : WsFrame) :
    frameStep (t :: (encodeVarint v ++ rest)) st =
      .cont rest
        (let f1 := if t >>> 3 = 1 then { st with SeqID := v } else st
         let f2 := if t >>> 3 = 2 then { f1 with LogID := v } else f1
         let f3 := if t >>> 3 = 3 then { f2 with service := v } else f2
         if t >>> 3 = 4 then { f3 with method := v } else f3) := by
  simp only [frameStep, decodeVarint_small t ht, ht0, decodeVarint_encodeVarint, if_pos]

theorem frameStep_field1 (v : Nat) (rest : List Nat) (st : WsFrame) :
    frameStep (8 :: (encodeVarint v ++ rest)) st = .cont rest { st with SeqID := v } := by
  rw [frameStep_varint 8 (by norm_num) (by decide)]
  simp only [show (8 : Nat) >>> 3 = 1 from by decide]
  norm_num

theorem frameStep_field2 (v : Nat) (rest : List Nat) (st : WsFrame) :
    frameStep (16 :: (encodeVarint v ++ rest)) st = .cont rest { st with LogID := v } := by
  rw [frameStep_varint 16 (by norm_num) (by decide)]
  simp only [show (16 : Nat) >>> 3 = 2 from by decide]
  norm_num

theorem frameStep_field3 (v : Nat) (rest : List Nat) (st : WsFrame) :
    frameStep (24 :: (encodeVarint v ++ rest)) st = .cont rest { st with service := v } := by
  rw [frameStep_varint 24 (by norm_num) (by decide)]
  simp only [show (24 : Nat) >>> 3 = 3 from by decide]
  norm_num

theorem frameStep_field4 (v : Nat) (rest : List Nat) (st : WsFrame) :
    frameStep (32 :: (encodeVarint v ++ rest)) st = .cont rest { st with method := v } := by
  rw [frameStep_varint 32 (by norm_num) (by decide)]
  simp only [show (32 : Nat) >>> 3 = 4 from by decide]
  norm_num

theorem frameStep_len (t : Nat) (ht : t < 128) (ht2 : t &&& 7 = 2) (bs rest : List Nat)
    (st : WsFrame) :
    frameStep (t :: (encodeVarint bs.length ++ (bs ++ rest))) st =
      (if t >>> 3 = 5 then
        (match decodeHeader bs with
         | none => .done none
         | some hd =>
           .cont rest
             (match st.headers with
              | some hs => { st with headers := some (hs ++ [hd]) }
              | none => st))
       else if t >>> 3 = 6 then .cont rest { st with payloadEncoding := some bs }
       else if t >>> 3 = 7 then .cont rest { st with payloadType := some bs }
       else if t >>> 3 = 8 then .cont rest { st with payload := some bs }
       else if t >>> 3 = 9 then .cont rest { st with LogIDNew := some bs }
       else .cont rest st) := by
  have hne : ¬ (t &&& 7 = 0) := by omega
  simp only [frameStep, decodeVarint_small t ht, ht2, hne, readLengthDelimited_enc,
    if_pos, if_neg, if_false]
  norm_num

theorem frameStep_field5 (hd : WsHeader) (rest : List Nat) (st : WsFrame)
    (hs : List WsHeader) (hst : st.headers = some hs) :
    frameStep (42 :: (encodeVarint (encodeHeader hd).length ++ (encodeHeader hd ++ rest))) st =
      .cont rest { st with headers := some (hs ++ [hd]) } := by
  rw [frameStep_len 42 (by norm_num) (by decide),
    if_pos (show (42 : Nat) >>> 3 = 5 by decide), decodeHeader_encodeHeader, hst]

theorem frameStep_field6 (bs rest : List Nat) (st : WsFrame) :
    frameStep (50 :: (encodeVarint bs.length ++ (bs ++ rest))) st =
      .cont rest { st with payloadEncoding := some bs } := by
  rw [frameStep_len 50 (by norm_num) (by decide),
    if_neg (show ¬ (50 : Nat) >>> 3 = 5 by decide),
    if_pos (show (50 : Nat) >>> 3 = 6 by decide)]

theorem frameStep_field7 (bs rest : List Nat) (st : WsFrame) :
    frameStep (58 :: (encodeVarint bs.length ++ (bs ++ rest))) st =
      .cont rest { st with payloadType := some bs } := by
  rw [frameStep_len 58 (by norm_num) (by decide),
    if_neg (show ¬ (58 : Nat) >>> 3 = 5 by decide),
    if_neg (show ¬ (58 : Nat) >>> 3 = 6 by decide),
    if_pos (show (58 : Nat) >>> 3 = 7 by decide)]

theorem frameStep_field8 (bs rest : List Nat) (st : WsFrame) :
    frameStep (66 :: (encodeVarint bs.length ++ (bs ++ rest))) st =
      .cont rest { st with payload := some bs } := by
  rw [frameStep_len 66 (by norm_num) (by decide),
    if_neg (show ¬ (66 : Nat) >>> 3 = 5 by decide),
    if_neg (show ¬ (66 : Nat) >>> 3 = 6 by decide),
    if_neg (show ¬ (66 : Nat) >>> 3 = 7 by decide),
    if_pos (show (66 : Nat) >>> 3 = 8 by decide)]

theorem frameStep_field9 (bs rest : List Nat) (st : WsFrame) :
    frameStep (74 :: (encodeVarint bs.length ++ (bs ++ rest))) st =
      .cont rest { st with LogIDNew := some bs } := by
  rw [frameStep_len 74 (by norm_num) (by decide),
    if_neg (show ¬ (74 : Nat) >>> 3 = 5 by decide),
    if_neg (show ¬ (74 : Nat) >>> 3 = 6 by decide),
    if_neg (show ¬ (74 : Nat) >>> 3 = 7 by decide),
    if_neg (show ¬ (74 : Nat) >>> 3 = 8 by decide),
    if_pos (show (74 : Nat) >>> 3 = 9 by decide)]

theorem decodeFrameLoop_nil (st : WsFrame) : decodeFrameLoop [] st = some st :=
  decodeFrameLoop_done [] st (some st) rfl

theorem decodeFrameLoop_headers (hds : List WsHeader) :
    ∀ (rest : List Nat) (st : WsFrame) (hs : List WsHeader), st.headers = some hs →
      decodeFrameLoop (hds.flatMap headerBlock ++ rest) st
        = decodeFrameLoop rest { st with headers := some (hs ++ hds) } := by
  induction hds with
  | nil =>
    intro rest st hs hst
    have he : { st with headers := some (hs ++ ([] : List WsHeader)) } = st := by
      cases st
      simp only [WsFrame.mk.injEq] at hst ⊢
      simp [hst]
    rw [List.flatMap_nil, List.nil_append, he]
  | cons hd tl ih =>
    intro rest st hs hst
    have t52 : encodeTag 5 2 = [42] := by
      rw [encodeTag, encodeVarint_small _ (by decide)]
      decide
    rw [List.flatMap_cons, headerBlock, t52]
    simp only [List.append_assoc, List.singleton_append, List.cons_append, List.nil_append]
    rw [decodeFrameLoop_cont _ _ _ _ (frameStep_field5 hd _ st hs hst)]
    rw [ih rest _ (hs ++ [hd]) rfl]
    simp [List.append_assoc]

/-- JS truthiness projection used by `encodeFrame` on its optional
string fields: a field that is absent or empty is omitted on encode,
so after decode it is back at its default (`none`); a nonempty field
round-trips. -/
def optTruthy (o : Option (List Nat)) : Option (List Nat) :=
  match o with
  | some s => if s = [] then none else some s
  | none => none

theorem decodeFrameLoop_chunkH (ho : Option (List WsHeader)) (rest : List Nat)
    (st : WsFrame) (h0 : st.headers = some []) :
    decodeFrameLoop (encHeadersBlock ho ++ rest) st
      = decodeFrameLoop rest { st with headers := some (ho.getD []) } := by
  rw [encHeadersBlock]
  by_cases hl : (ho.getD []).length ≠ 0
  · rw [if_pos hl]
    rw [decodeFrameLoop_headers (ho.getD []) rest st [] h0]
    simp
  · rw [if_neg hl]
    push_neg at hl
    have hnil : ho.getD [] = [] := List.length_eq_zero.mp hl
    have he : { st with headers := some (ho.getD []) } = st := by
      cases st
      simp only [WsFrame.mk.injEq] at h0 ⊢
      simp [h0, hnil]
    rw [List.nil_append, he]

theorem decodeFrameLoop_chunk6 (o : Option (List Nat)) (rest : List Nat)
    (st : WsFrame) (h0 : st.payloadEncoding = none) :
    decodeFrameLoop (encOptStrBlock 6 o ++ rest) st
      = decodeFrameLoop rest { st with payloadEncoding := optTruthy o } := by
  have hid : ∀ (st2 : WsFrame), st2.payloadEncoding = none →
      ({ st2 with payloadEncoding := (none : Option (List Nat)) } : WsFrame) = st2 := by
    intro st2 h2
    cases st2
    simp only [WsFrame.mk.injEq] at h2 ⊢
    simp [h2]
  rcases o with _ | s
  · rw [encOptStrBlock, optTruthy]
    rw [List.nil_append, hid st h0]
  · rw [encOptStrBlock, optTruthy]
    by_cases hs : s = []
    · rw [if_neg (by simp [hs]), if_pos hs, List.nil_append, hid st h0]
    · rw [if_pos hs, if_neg hs]
      have t62 : encodeTag 6 2 = [50] := by
        rw [encodeTag, encodeVarint_small _ (by decide)]
        decide
      rw [t62]
      simp only [List.append_assoc, List.singleton_append, List.cons_append, List.nil_append]
      rw [decodeFrameLoop_cont _ _ _ _ (frameStep_field6 s _ st)]

theorem decodeFrameLoop_chunk7 (o : Option (List Nat)) (rest : List Nat)
    (st : WsFrame) (h0 : st.payloadType = none) :
    decodeFrameLoop (encOptStrBlock 7 o ++ rest) st
      = decodeFrameLoop rest { st with payloadType := optTruthy o } := by
  have hid : ∀ (st2 : WsFrame), st2.payloadType = none →
      ({ st2 with payloadType := (none : Option (List Nat)) } : WsFrame) = st2 := by
    intro st2 h2
    cases st2
    simp only [WsFrame.mk.injEq] at h2 ⊢
    simp [h2]
  rcases o with _ | s
  · rw [encOptStrBlock, optTruthy]
    rw [List.nil_append, hid st h0]
  · rw [encOptStrBlock, optTruthy]
    by_cases hs : s = []
    · rw [if_neg (by simp [hs]), if_pos hs, List.nil_append, hid st h0]
    · rw [if_pos hs, if_neg hs]
      have t72 : encodeTag 7 2 = [58] := by
        rw [encodeTag, encodeVarint_small _ (by decide)]
        decide
      rw [t72]
      simp only [List.append_assoc, List.singleton_append, List.cons_append, List.nil_append]
      rw [decodeFrameLoop_cont _ _ _ _ (frameStep_field7 s _ st)]

theorem decodeFrameLoop_chunk8 (o : Option (List Nat)) (rest : List Nat)
    (st : WsFrame) (h0 : st.payload = none) :
    decodeFrameLoop (encPayloadBlock o ++ rest) st
      = decodeFrameLoop rest { st with payload := o } := by
  rcases o with _ | p
  · have he : ({ st with payload := (none : Option (List Nat)) } : WsFrame) = st := by
      cases st
      simp only [WsFrame.mk.injEq] at h0 ⊢
      simp [h0]
    rw [encPayloadBlock, List.nil_append, he]
  · rw [encPayloadBlock]
    have t82 : encodeTag 8 2 = [66] := by
      rw [encodeTag, encodeVarint_small _ (by decide)]
      decide
    rw [t82]
    simp only [List.append_assoc, List.singleton_append, List.cons_append, List.nil_append]
    rw [decodeFrameLoop_cont _ _ _ _ (frameStep_field8 p _ st)]

theorem decodeFrameLoop_chunk9 (o : Option (List Nat)) (rest : List Nat)
    (st : WsFrame) (h0 : st.LogIDNew = none) :
    decodeFrameLoop (encOptStrBlock 9 o ++ rest) st
      = decodeFrameLoop rest { st with LogIDNew := optTruthy o } := by
  have hid : ∀ (st2 : WsFrame), st2.LogIDNew = none →
      ({ st2 with LogIDNew := (none : Option (List Nat)) } : WsFrame) = st2 := by
    intro st2 h2
    cases st2
    simp only [WsFrame.mk.injEq] at h2 ⊢
    simp [h2]
  rcases o with _ | s
  · rw [encOptStrBlock, optTruthy]
    rw [List.nil_append, hid st h0]
  · rw [encOptStrBlock, optTruthy]
    by_cases hs : s = []
    · rw [if_neg (by simp [hs]), if_pos hs, List.nil_append, hid st h0]
    · rw [if_pos hs, if_neg hs]
      have t92 : encodeTag 9 2 = [74] := by
        rw [encodeTag, encodeVarint_small _ (by decide)]
        decide
      rw [t92]
      simp only [List.append_assoc, List.singleton_append, List.cons_append, List.nil_append]
      rw [decodeFrameLoop_cont _ _ _ _ (frameStep_field9 s _ st)]

/-- C1: for every frame (arbitrary headers, payload and unsigned
sequence/log ids), `decodeFrame (encodeFrame f)` reproduces every
field that is set on `f`, with header order preserved: the four varint
fields and the payload come back exactly; the header list comes back
as the list that was present (an absent or empty header list decodes
to the default `[]`); each optional string field comes back exactly
when it was set to a nonempty (JS-truthy) value and is left at its
decode default `none` when it was absent (or empty, which JS
truthiness treats as absent and omits on encode). -/
theorem decode_encode_roundtrip (f : WsFrame) :
    decodeFrame (encodeFrame f) = some
      { SeqID := f.SeqID, LogID := f.LogID, service := f.service, method := f.method,
        headers := some (f.headers.getD []),
        payloadEncoding := optTruthy f.payloadEncoding,
        payloadType := optTruthy f.payloadType,
        payload := f.payload,
        LogIDNew := optTruthy f.LogIDNew } := by
  obtain ⟨s1, s2, s3, s4, ho, pe, pt, pl, ln⟩ := f
  rw [decodeFrame, ← List.append_nil (encodeFrame _), encodeFrame]
  have t1 : encodeTag 1 0 = [8] := by
    rw [encodeTag, encodeVarint_small _ (by decide)]
    decide
  have t2 : encodeTag 2 0 = [16] := by
    rw [encodeTag, encodeVarint_small _ (by decide)]
    decide
  have t3 : encodeTag 3 0 = [24] := by
    rw [encodeTag, encodeVarint_small _ (by decide)]
    decide
  have t4 : encodeTag 4 0 = [32] := by
    rw [encodeTag, encodeVarint_small _ (by decide)]
    decide
  rw [t1, t2, t3, t4]
  simp only [List.append_assoc, List.singleton_append, List.cons_append, List.nil_append]
  rw [decodeFrameLoop_cont _ _ _ _ (frameStep_field1 _ _ _),
    decodeFrameLoop_cont _ _ _ _ (frameStep_field2 _ _ _),
    decodeFrameLoop_cont _ _ _ _ (frameStep_field3 _ _ _),
    decodeFrameLoop_cont _ _ _ _ (frameStep_field4 _ _ _),
    decodeFrameLoop_chunkH ho _ _ rfl,
    decodeFrameLoop_chunk6 pe _ _ rfl,
    decodeFrameLoop_chunk7 pt _ _ rfl,
    decodeFrameLoop_chunk8 pl _ _ rfl,
    decodeFrameLoop_chunk9 ln _ _ rfl,
    decodeFrameLoop_nil]

/-! ## Chunk reassembly cache (`src/feishu/ws-data-cache.ts`) -/

/-- JSON value universe, mirroring the `JsonValue` type of
`ws-data-cache.ts` (numbers as rationals). -/
inductive JsonValue where
  | str (s : String)
  | num (q : ℚ)
  | bool (b : Bool)
  | null
  | arr (items : List JsonValue)
  | obj (fields : List (String × JsonValue))

/-- Mirrors `CacheEntry`: slot array (index-addressed, `none` = still
missing), trace id, message id, creation time (`Date.now()` in ms). -/
structure CacheEntry where
  buffer : List (Option (List Nat))
  traceId : String
  messageId : String
  createdAt : Nat

/-- The `Map<string, CacheEntry>` of `WsDataCache`, as an association
list in insertion order: `Map.set` on an existing key updates it in
place, otherwise appends; `Map.delete` removes the key. -/
abbrev WsCache := List (String × CacheEntry)

/-- Mirrors `Map.get`. -/
def cacheGet (c : WsCache) (k : String) : Option CacheEntry :=
  (c.find? (fun e => e.1 == k)).map (fun e => e.2)

/-- Mirrors `Map.set`. -/
def cacheSet (c : WsCache) (k : String) (v : CacheEntry) : WsCache :=
  if c.any (fun e => e.1 == k) then
    c.map (fun e => if e.1 == k then (k, v) else e)
  else c ++ [(k, v)]

/-- Mirrors `Map.delete`. -/
def cacheDelete (c : WsCache) (k : String) : WsCache :=
  c.filter (fun e => e.1 != k)

/-- Outcome of one `mergeData` call: `threw` is a propagated
`JSON.parse` exception, `nullResult` is the `null` return, and
`merged v` is a non-null assembled result. -/
inductive MergeOutcome where
  | threw
  | nullResult
  | merged (v : JsonValue)

/-- The `reduce` concatenation in `mergeData`: chunks joined in index
order, a missing chunk contributing nothing (`chunk ?? new
Uint8Array()`). -/
def concatChunks (buffer : List (Option (List Nat))) : List Nat :=
  buffer.foldl (fun acc chunk => acc ++ chunk.getD []) []

/-- The cache-insertion half of `mergeData` (lines 37-49): on a missing
entry allocate `sum` empty slots and place the chunk at `seq`; on an
existing entry place the chunk at `seq` (duplicate index: last write
wins).  The model assumes the in-range index `seq < sum` used by every
claim (`List.set` drops an out-of-range write, where a JS array would
grow). -/
def mergeCachePut (cache : WsCache) (messageId : String) (sum seq : Nat)
    (traceId : String) (data : List Nat) (now : Nat) : WsCache :=
  match cacheGet cache messageId with
  | none =>
    cacheSet cache messageId
      ⟨(List.replicate sum (none : Option (List Nat))).set seq (some data),
        traceId, messageId, now⟩
  | some cached =>
    cacheSet cache messageId { cached with buffer := cached.buffer.set seq (some data) }

/-- Mirrors `WsDataCache.mergeData`.  `jsonParse` stands for the
runtime composition `JSON.parse ∘ TextDecoder.decode` (with `none` for
a parse throw); `now` is `Date.now()`.  When the slot array is full the
source parses the concatenation, deletes the entry and returns the
parsed value; a parse throw propagates before the delete, so the entry
stays. -/
def mergeData (jsonParse : List Nat → Option JsonValue) (cache : WsCache)
    (messageId : String) (sum seq : Nat) (traceId : String) (data : List Nat)
    (now : Nat) : MergeOutcome × WsCache :=
  let cache1 := mergeCachePut cache messageId sum seq traceId data now
  match cacheGet cache1 messageId with
  | none => (.nullResult, cache1)
  | some merged =>
    if merged.buffer.all (fun chunk => chunk.isSome) then
      match jsonParse (concatChunks merged.buffer) with
      | none => (.threw, cache1)
      | some parsed => (.merged parsed, cacheDelete cache1 messageId)
    else (.nullResult, cache1)

/-- The slot array for `messageId` right after the current call placed
its chunk. -/
def updatedBuffer (cache : WsCache) (messageId : String) (sum seq : Nat)
    (data : List Nat) : List (Option (List Nat)) :=
  (match cacheGet cache messageId with
   | none => List.replicate sum (none : Option (List Nat))
   | some e => e.buffer).set seq (some data)

theorem cacheGet_set_self (c : WsCache) (k : String) (v : CacheEntry) :
    cacheGet (cacheSet c k v) k = some v := by
  rw [cacheSet]
  by_cases ha : c.any (fun e => e.1 == k)
  · rw [if_pos ha]
    induction c with
    | nil => simp at ha
    | cons e tl ih =>
      simp only [List.any_cons, Bool.or_eq_true] at ha
      by_cases he : e.1 == k
      · simp [cacheGet, List.find?, he]
      · simp only [List.map_cons, if_neg he]
        rw [cacheGet, List.find?]
        simp only [he]
        rcases ha with ha | ha
        · simp at he ha
          exact absurd ha he
        · exact ih ha
  · rw [if_neg ha]
    induction c with
    | nil => simp [cacheGet, List.find?]
    | cons e tl ih =>
      simp only [List.any_cons, Bool.or_eq_true, not_or] at ha
      rw [List.cons_append, cacheGet, List.find?]
      have he : (e.1 == k) = false := by
        rcases Bool.eq_false_or_eq_true (e.1 == k) with h | h
        · exact absurd h ha.1
        · exact h
      simp only [he]
      have := ih (by simpa using ha.2)
      rw [cacheGet] at this
      exact this

theorem cacheGet_delete_self (c : WsCache) (k : String) :
    cacheGet (cacheDelete c k) k = none := by
  rw [cacheDelete]
  induction c with
  | nil => simp [cacheGet, List.find?]
  | cons e tl ih =>
    by_cases he : e.1 == k
    · have : (e.1 != k) = false := by simp_all
      rw [List.filter_cons, this]
      simp only [Bool.false_eq_true, if_false]
      exact ih
    · have hne : (e.1 != k) = true := by simp_all
      rw [List.filter_cons, hne]
      simp only [if_true]
      rw [cacheGet, List.find?]
      have : (e.1 == k) = false := by simp_all
      simp only [this]
      exact ih

theorem cacheGet_mergeCachePut (cache : WsCache) (messageId : String) (sum seq : Nat)
    (traceId : String) (data : List Nat) (now : Nat) :
    ∃ e, cacheGet (mergeCachePut cache messageId sum seq traceId data now) messageId = some e ∧
      e.buffer = updatedBuffer cache messageId sum seq data := by
  rw [mergeCachePut, updatedBuffer]
  rcases hc : cacheGet cache messageId with _ | cached <;> dsimp only
  · exact ⟨_, cacheGet_set_self _ _ _, rfl⟩
  · exact ⟨_, cacheGet_set_self _ _ _, rfl⟩

theorem updatedBuffer_length (cache : WsCache) (messageId : String) (sum seq : Nat)
    (data : List Nat)
    (hlen : ∀ e, cacheGet cache messageId = some e → e.buffer.length = sum) :
    (updatedBuffer cache messageId sum seq data).length = sum := by
  rw [updatedBuffer]
  rcases hc : cacheGet cache messageId with _ | cached <;> dsimp only
  · simp
  · simp [hlen cached hc]

/-- C2 (amended): in one `mergeData` call for a message id whose chunk
count is `sum` (every existing entry has `sum` slots, chunk indexes in
range): if after the placement at least one slot is still empty, the
call returns null and the entry stays in the cache with exactly the
updated slot array; and any call returning a non-null merged value had
all slots filled, returns the parse of the in-order concatenation, and
deletes the entry.  The claim's further clause that at most one call
over the whole sequence, even after a completion, returns non-null is
false on the code (see the counterexample): deletion lets a later call
for the same id start a fresh assembly that completes again. -/
theorem mergeData_null_until_complete
    (jp : List Nat → Option JsonValue) (cache : WsCache) (messageId : String)
    (sum seq : Nat) (traceId : String) (data : List Nat) (now : Nat)
    (hseq : seq < sum)
    (hlen : ∀ e, cacheGet cache messageId = some e → e.buffer.length = sum) :
    ((∃ i, i < sum ∧ (updatedBuffer cache messageId sum seq data)[i]? = some none) →
        (mergeData jp cache messageId sum seq traceId data now).1 = .nullResult ∧
        ∃ e, cacheGet (mergeData jp cache messageId sum seq traceId data now).2 messageId
              = some e ∧ e.buffer = updatedBuffer cache messageId sum seq data) ∧
    (∀ v, (mergeData jp cache messageId sum seq traceId data now).1 = .merged v →
        cacheGet (mergeData jp cache messageId sum seq traceId data now).2 messageId = none ∧
        (∀ i, i < sum → (updatedBuffer cache messageId sum seq data)[i]? ≠ some none) ∧
        jp (concatChunks (updatedBuffer cache messageId sum seq data)) = some v) := by
  obtain ⟨e1, he1, hbuf⟩ := cacheGet_mergeCachePut cache messageId sum seq traceId data now
  have hl1 : e1.buffer.length = sum := by
    rw [hbuf]
    exact updatedBuffer_length cache messageId sum seq data hlen
  simp only [mergeData]
  rw [he1]
  dsimp only
  by_cases hall : e1.buffer.all (fun chunk => chunk.isSome)
  · rw [if_pos hall]
    have hfull : ∀ i, i < sum → (updatedBuffer cache messageId sum seq data)[i]? ≠ some none := by
      intro i hi hcontra
      rw [← hbuf] at hcontra
      have hmem : (none : Option (List Nat)) ∈ e1.buffer := List.getElem?_mem hcontra
      have := List.all_eq_true.mp hall none hmem
      simp at this
    have hnotex : ¬ (∃ i, i < sum ∧ (updatedBuffer cache messageId sum seq data)[i]? = some none) := by
      rintro ⟨i, hi, hget⟩
      exact hfull i hi hget
    rcases hjp : jp (concatChunks e1.buffer) with _ | v0 <;> dsimp only
    · exact ⟨fun hex => absurd hex hnotex, fun v hv => by cases hv⟩
    · refine ⟨fun hex => absurd hex hnotex, fun v hv => ?_⟩
      cases hv
      refine ⟨cacheGet_delete_self _ _, hfull, ?_⟩
      rw [← hbuf]
      exact hjp
  · rw [if_neg hall]
    dsimp only
    refine ⟨fun _ => ⟨rfl, e1, he1, hbuf⟩, fun v hv => by cases hv⟩

theorem cacheGet_nil (k : String) : cacheGet [] k = none := rfl

theorem cacheSet_nil (k : String) (v : CacheEntry) : cacheSet [] k v = [(k, v)] := by
  simp [cacheSet]

theorem cacheGet_single_self (k : String) (v : CacheEntry) :
    cacheGet [(k, v)] k = some v := by
  simp [cacheGet, List.find?]

theorem cacheSet_single_self (k : String) (v v2 : CacheEntry) :
    cacheSet [(k, v)] k v2 = [(k, v2)] := by
  simp [cacheSet]

/-- First call for a fresh message id with 2 chunks, placing the chunk
at index 1: returns null, caches `[none, chunk]`. -/
theorem mergeData_first_seq1 (jp : List Nat → Option JsonValue) (mid : String)
    (d1 : List Nat) (t0 : String) (n0 : Nat) :
    mergeData jp [] mid 2 1 t0 d1 n0 =
      (.nullResult, [(mid, ⟨[none, some d1], t0, mid, n0⟩)]) := by
  have hb : ((List.replicate 2 (none : Option (List Nat))).set 1 (some d1)) = [none, some d1] := rfl
  simp only [mergeData, mergeCachePut, cacheGet_nil, cacheSet_nil, hb,
    cacheGet_single_self]
  simp [concatChunks]

/-- First call for a fresh message id with 2 chunks, placing the chunk
at index 0: returns null, caches `[chunk, none]`. -/
theorem mergeData_first_seq0 (jp : List Nat → Option JsonValue) (mid : String)
    (d0 : List Nat) (t0 : String) (n0 : Nat) :
    mergeData jp [] mid 2 0 t0 d0 n0 =
      (.nullResult, [(mid, ⟨[some d0, none], t0, mid, n0⟩)]) := by
  have hb : ((List.replicate 2 (none : Option (List Nat))).set 0 (some d0)) = [some d0, none] := rfl
  simp only [mergeData, mergeCachePut, cacheGet_nil, cacheSet_nil, hb,
    cacheGet_single_self]
  simp [concatChunks]

/-- Completing call: the missing chunk of a 2-chunk message arrives at
index 0; the outcome is the parse of the in-order concatenation. -/
theorem mergeData_complete_seq0 (jp : List Nat → Option JsonValue) (mid : String)
    (d0 d1 : List Nat) (t0 t1 : String) (n0 n1 : Nat) :
    mergeData jp [(mid, ⟨[none, some d1], t0, mid, n0⟩)] mid 2 0 t1 d0 n1 =
      (match jp (d0 ++ d1) with
       | none => (MergeOutcome.threw, [(mid, ⟨[some d0, some d1], t0, mid, n0⟩)])
       | some v => (MergeOutcome.merged v, [])) := by
  have hb : (([none, some d1] : List (Option (List Nat))).set 0 (some d0)) = [some d0, some d1] := rfl
  have hcc : concatChunks [some d0, some d1] = d0 ++ d1 := by
    simp [concatChunks]
  simp only [mergeData, mergeCachePut, cacheGet_single_self, cacheSet_single_self, hb,
    hcc]
  rcases hj : jp (d0 ++ d1) with _ | v <;> simp [cacheDelete]

/-- Completing call: the missing chunk of a 2-chunk message arrives at
index 1; the outcome is the parse of the in-order concatenation. -/
theorem mergeData_complete_seq1 (jp : List Nat → Option JsonValue) (mid : String)
    (d0 d1 : List Nat) (t0 t1 : String) (n0 n1 : Nat) :
    mergeData jp [(mid, ⟨[some d0, none], t0, mid, n0⟩)] mid 2 1 t1 d1 n1 =
      (match jp (d0 ++ d1) with
       | none => (MergeOutcome.threw, [(mid, ⟨[some d0, some d1], t0, mid, n0⟩)])
       | some v => (MergeOutcome.merged v, [])) := by
  have hb : (([some d0, none] : List (Option (List Nat))).set 1 (some d1)) = [some d0, some d1] := rfl
  have hcc : concatChunks [some d0, some d1] = d0 ++ d1 := by
    simp [concatChunks]
  simp only [mergeData, mergeCachePut, cacheGet_single_self, cacheSet_single_self, hb,
    hcc]
  rcases hj : jp (d0 ++ d1) with _ | v <;> simp [cacheDelete]

/-- C6: for a message split into two chunks, feeding seq 1 then seq 0
yields, on the completing second call, the same assembled outcome as
feeding seq 0 then seq 1; both equal the parse of the in-order
concatenation `chunk0 ++ chunk1`. -/
theorem mergeData_out_of_order_eq_in_order
    (jp : List Nat → Option JsonValue) (mid : String) (d0 d1 : List Nat)
    (t0 t1 : String) (n0 n1 : Nat) :
    (mergeData jp (mergeData jp [] mid 2 1 t0 d1 n0).2 mid 2 0 t1 d0 n1).1
      = (mergeData jp (mergeData jp [] mid 2 0 t0 d0 n0).2 mid 2 1 t1 d1 n1).1
    ∧ (mergeData jp (mergeData jp [] mid 2 1 t0 d1 n0).2 mid 2 0 t1 d0 n1).1
      = (match jp (d0 ++ d1) with
         | none => MergeOutcome.threw
         | some v => MergeOutcome.merged v) := by
  rw [mergeData_first_seq1, mergeData_first_seq0]
  dsimp only
  rw [mergeData_complete_seq0, mergeData_complete_seq1]
  rcases hj : jp (d0 ++ d1) with _ | v <;> simp

/-- Sample instance of the `JSON.parse` runtime parameter for closed
evaluations: the one-byte body `"1"` (byte 49) parses to the number 1,
exactly as `JSON.parse` does; everything else throws. -/
def jpSample : List Nat → Option JsonValue := fun bs =>
  if bs = [49] then some (.num 1) else none

/-- C2 counterexample: message id `"m"` with fixed chunk count 1.  The
first call completes and returns a non-null merged value; because the
completing call deleted the entry, a second call for the same message
id (arriving after the completion) assembles afresh and returns a
non-null value again — two non-null results for one message id,
against the claim's "at most one ... (including calls arriving after a
completion)". -/
theorem mergeData_second_nonnull_after_completion :
    (mergeData jpSample [] "m" 1 0 "t" [49] 0).1 = .merged (.num 1) ∧
    (mergeData jpSample (mergeData jpSample [] "m" 1 0 "t" [49] 0).2 "m" 1 0 "t" [49] 5).1
      = .merged (.num 1) := by
  constructor <;> rfl

/-- Witness for the amended C2 theorem at a concrete input: empty
cache, message id `"m"`, chunk count 2, chunk index 0. -/
theorem mergeData_null_until_complete_witness :
    (0 < 2) ∧
    (∀ e, cacheGet [] "m" = some e → e.buffer.length = 2) ∧
    (((∃ i, i < 2 ∧ (updatedBuffer [] "m" 2 0 [49])[i]? = some none) →
        (mergeData jpSample [] "m" 2 0 "t" [49] 0).1 = .nullResult ∧
        ∃ e, cacheGet (mergeData jpSample [] "m" 2 0 "t" [49] 0).2 "m"
              = some e ∧ e.buffer = updatedBuffer [] "m" 2 0 [49]) ∧
    (∀ v, (mergeData jpSample [] "m" 2 0 "t" [49] 0).1 = .merged v →
        cacheGet (mergeData jpSample [] "m" 2 0 "t" [49] 0).2 "m" = none ∧
        (∀ i, i < 2 → (updatedBuffer [] "m" 2 0 [49])[i]? ≠ some none) ∧
        jpSample (concatChunks (updatedBuffer [] "m" 2 0 [49])) = some v)) :=
  ⟨by decide, fun e h => by simp [cacheGet] at h,
    mergeData_null_until_complete jpSample [] "m" 2 0 "t" [49] 0 (by decide)
      (fun e h => by simp [cacheGet] at h)⟩

/-! ## Callback verifier (`src/feishu/events.ts`) -/

/-- Mirrors the fields of `FeishuCallbackEnvelope` that
`parseFeishuCallback` reads.  `headerToken` is `payload.header?.token`
collapsed to one optional value, matching the only use
`payload.header?.token ?? payload.token`; `challenge` holds
`String(payload.challenge)` when the JSON field is present. -/
structure FeishuCallbackEnvelope where
  encrypt : Option String
  type : Option String
  challenge : Option String
  token : Option String
  headerToken : Option String
deriving DecidableEq, Repr

/-- Mirrors `FeishuCallbackResult`. -/
inductive FeishuCallbackResult where
  | challenge (challenge : String)
  | event (event : FeishuCallbackEnvelope)
deriving DecidableEq, Repr

/-- Mirrors `FeishuSignatureHeaders`. -/
structure FeishuSignatureHeaders where
  signature : Option String
  timestamp : Option String
  nonce : Option String
deriving DecidableEq, Repr

/-- Mirrors `FeishuEventVerification`. -/
structure FeishuEventVerification where
  verificationToken : Option String
  encryptKey : Option String
  appSecret : Option String
deriving DecidableEq, Repr

/-- The six explicit `throw new Error(...)` sites of
`parseFeishuCallback`, plus the two runtime throws that propagate
through it: a `JSON.parse` failure (`invalidJson`) and an
`AESCipher.decrypt` failure (`decryptFailed`). -/
inductive FeishuCallbackError where
  | emptyBody
  | signatureNoSecret
  | signatureMismatch
  | encryptNoKey
  | decryptFailed
  | invalidJson
  | tokenMismatch
  | challengeMissing
deriving DecidableEq, Repr

/-- Runtime crypto/JSON primitives `events.ts` calls; theorems
quantify over them.  `sha256Hex s` is
`crypto.createHash("sha256").update(s).digest("hex")`;
`aesDecrypt key ciphertext` is `new AESCipher(key).decrypt(ciphertext)`
(AES-256-CBC with SHA-256-derived key, `none` for a throw on bad
base64/padding); `parseJson` is `JSON.parse` read as the envelope
(`none` for a throw). -/
structure CallbackPrims where
  sha256Hex : String → String
  aesDecrypt : String → String → Option String
  parseJson : String → Option FeishuCallbackEnvelope

/-- JS whitespace test used by `String.prototype.trim` (the ASCII
whitespace and line-terminator characters; all strings the claims use
contain no exotic Unicode whitespace). -/
def isJsWs (c : Char) : Bool :=
  c == ' ' || c == '\t' || c == '\n' || c == '\r' || c == '\x0b' || c == '\x0c'

/-- Executable model of `String.prototype.trim`: drop whitespace from
both ends.  (Core `String.trim` computes the same strings but is not
kernel-reducible, so closed evaluations use this model.) -/
def jsTrim (s : String) : String :=
  String.mk (((s.data.dropWhile isJsWs).reverse.dropWhile isJsWs).reverse)

/-- Executable model of `String.prototype.toLowerCase` on the ASCII
range (all type tags compared are ASCII). -/
def jsToLower (s : String) : String :=
  String.mk (s.data.map (fun c =>
    if c.toNat ≥ 65 ∧ c.toNat ≤ 90 then Char.ofNat (c.toNat + 32) else c))

/-- Mirrors `normalizeType`: `value?.trim().toLowerCase() ?? ""`. -/
def normalizeType (value : Option String) : String :=
  jsToLower (jsTrim (value.getD ""))

/-- Mirrors `extractToken`: `payload.header?.token ?? payload.token`. -/
def extractToken (payload : FeishuCallbackEnvelope) : Option String :=
  payload.headerToken <|> payload.token

/-- JS truthiness of an optional string: absent and empty are falsy. -/
def strTruthy (o : Option String) : Bool :=
  o.getD "" != ""

/-- Mirrors `parseFeishuCallback`.  Each `throw` site returns the
corresponding `.error`; the guarded token check (`if
(verificationToken) { if (token !== verificationToken) throw }`) is
flattened into one conjunction. -/
def parseFeishuCallback (prims : CallbackPrims) (rawBody : String)
    (headers : FeishuSignatureHeaders) (verification : FeishuEventVerification) :
    Except FeishuCallbackError FeishuCallbackResult :=
  if rawBody = "" then .error .emptyBody
  else
    let sigCheck : Except FeishuCallbackError Unit :=
      if strTruthy headers.signature then
        let appSecret := jsTrim (verification.appSecret.getD "")
        if appSecret = "" then .error .signatureNoSecret
        else
          let timestamp := jsTrim (headers.timestamp.getD "")
          let nonce := jsTrim (headers.nonce.getD "")
          let expected := prims.sha256Hex (timestamp ++ nonce ++ rawBody ++ appSecret)
          if headers.signature ≠ some expected then .error .signatureMismatch
          else .ok ()
      else .ok ()
    match sigCheck with
    | .error e => .error e
    | .ok _ =>
      match prims.parseJson rawBody with
      | none => .error .invalidJson
      | some payload0 =>
        let decryptStep : Except FeishuCallbackError FeishuCallbackEnvelope :=
          if strTruthy payload0.encrypt then
            let encryptKey := jsTrim (verification.encryptKey.getD "")
            if encryptKey = "" then .error .encryptNoKey
            else
              match prims.aesDecrypt encryptKey (payload0.encrypt.getD "") with
              | none => .error .decryptFailed
              | some decrypted =>
                match prims.parseJson decrypted with
                | none => .error .invalidJson
                | some p => .ok p
          else .ok payload0
        match decryptStep with
        | .error e => .error e
        | .ok payload =>
          let verificationToken := jsTrim (verification.verificationToken.getD "")
          if verificationToken ≠ "" ∧ extractToken payload ≠ some verificationToken then
            .error .tokenMismatch
          else
            let ty := normalizeType payload.type
            if ty = "challenge" ∨ ty = "url_verification" then
              let challenge := payload.challenge.getD ""
              if challenge = "" then .error .challengeMissing
              else .ok (.challenge challenge)
            else .ok (.event payload)

/-- The raise cases of claim C3 as a predicate over the inputs,
following the claim's list, extended with the three cases the code
also raises (forced by the counterexample): the raw body fails to
parse as JSON, decryption itself fails, and the decrypted payload
fails to parse as JSON. -/
def callbackRaisesSpec (prims : CallbackPrims) (rawBody : String)
    (headers : FeishuSignatureHeaders) (verification : FeishuEventVerification) : Bool :=
  if rawBody = "" then true
  else if strTruthy headers.signature ∧ jsTrim (verification.appSecret.getD "") = "" then true
  else if strTruthy headers.signature ∧
      headers.signature ≠ some (prims.sha256Hex (jsTrim (headers.timestamp.getD "")
        ++ jsTrim (headers.nonce.getD "") ++ rawBody
        ++ jsTrim (verification.appSecret.getD ""))) then true
  else
    match prims.parseJson rawBody with
    | none => true
    | some payload0 =>
      if strTruthy payload0.encrypt ∧ jsTrim (verification.encryptKey.getD "") = "" then true
      else
        match (if strTruthy payload0.encrypt then
                 match prims.aesDecrypt (jsTrim (verification.encryptKey.getD ""))
                     (payload0.encrypt.getD "") with
                 | none => none
                 | some decrypted => prims.parseJson decrypted
               else some payload0) with
        | none => true
        | some payload =>
          if jsTrim (verification.verificationToken.getD "") ≠ "" ∧
              extractToken payload ≠ some (jsTrim (verification.verificationToken.getD "")) then
            true
          else if (normalizeType payload.type = "challenge"
                ∨ normalizeType payload.type = "url_verification") ∧
              payload.challenge.getD "" = "" then
            true
          else false

/-- C3 (amended): `parseFeishuCallback` raises exactly in the claim's
listed cases extended with the JSON-parse and decryption failures; in
every other case it returns a Challenge or Event result without
raising. -/
theorem parseFeishuCallback_raises_iff (prims : CallbackPrims) (rawBody : String)
    (headers : FeishuSignatureHeaders) (verification : FeishuEventVerification) :
    (parseFeishuCallback prims rawBody headers verification).isOk
      = ! callbackRaisesSpec prims rawBody headers verification := by
  rw [parseFeishuCallback, callbackRaisesSpec]
  by_cases h1 : rawBody = ""
  · simp [h1, Except.isOk, Except.toBool]
  · by_cases hsig : strTruthy headers.signature
    · by_cases hsec : jsTrim (verification.appSecret.getD "") = ""
      · simp [h1, hsig, hsec, Except.isOk, Except.toBool]
      · by_cases hexp : headers.signature = some (prims.sha256Hex
            (jsTrim (headers.timestamp.getD "") ++ jsTrim (headers.nonce.getD "") ++ rawBody
              ++ jsTrim (verification.appSecret.getD "")))
        · rcases hp : prims.parseJson rawBody with _ | payload0
          · simp [h1, hsig, hsec, hexp, hp, Except.isOk, Except.toBool]
          · by_cases henc : strTruthy payload0.encrypt
            · by_cases hkey : jsTrim (verification.encryptKey.getD "") = ""
              · simp [h1, hsig, hsec, hexp, hp, henc, hkey, Except.isOk, Except.toBool]
              · rcases had : prims.aesDecrypt (jsTrim (verification.encryptKey.getD ""))
                    (payload0.encrypt.getD "") with _ | dec
                · simp [h1, hsig, hsec, hexp, hp, henc, hkey, had, Except.isOk, Except.toBool]
                · rcases hp2 : prims.parseJson dec with _ | payload
                  · simp [h1, hsig, hsec, hexp, hp, henc, hkey, had, hp2, Except.isOk, Except.toBool]
                  · by_cases hvt : jsTrim (verification.verificationToken.getD "") = ""
                    · by_cases hty : normalizeType payload.type = "challenge"
                          ∨ normalizeType payload.type = "url_verification"
                      · by_cases hch : payload.challenge.getD "" = ""
                        · simp [h1, hsig, hsec, hexp, hp, henc, hkey, had, hp2, hvt, hty, hch, Except.isOk, Except.toBool]
                        · simp [h1, hsig, hsec, hexp, hp, henc, hkey, had, hp2, hvt, hty, hch, Except.isOk, Except.toBool]
                      · simp [h1, hsig, hsec, hexp, hp, henc, hkey, had, hp2, hvt, hty, Except.isOk, Except.toBool]
                    · by_cases htok : extractToken payload = some (jsTrim (verification.verificationToken.getD ""))
                      · by_cases hty : normalizeType payload.type = "challenge"
                            ∨ normalizeType payload.type = "url_verification"
                        · by_cases hch : payload.challenge.getD "" = ""
                          · simp [h1, hsig, hsec, hexp, hp, henc, hkey, had, hp2, hvt, htok, hty, hch, Except.isOk, Except.toBool]
                          · simp [h1, hsig, hsec, hexp, hp, henc, hkey, had, hp2, hvt, htok, hty, hch, Except.isOk, Except.toBool]
                        · simp [h1, hsig, hsec, hexp, hp, henc, hkey, had, hp2, hvt, htok, hty, Except.isOk, Except.toBool]
                      · simp [h1, hsig, hsec, hexp, hp, henc, hkey, had, hp2, hvt, htok, Except.isOk, Except.toBool]

            · by_cases hvt : jsTrim (verification.verificationToken.getD "") = ""
              · by_cases hty : normalizeType payload0.type = "challenge"
                    ∨ normalizeType payload0.type = "url_verification"
                · by_cases hch : payload0.challenge.getD "" = ""
                  · simp [h1, hsig, hsec, hexp, hp, henc, hvt, hty, hch, Except.isOk, Except.toBool]
                  · simp [h1, hsig, hsec, hexp, hp, henc, hvt, hty, hch, Except.isOk, Except.toBool]
                · simp [h1, hsig, hsec, hexp, hp, henc, hvt, hty, Except.isOk, Except.toBool]
              · by_cases htok : extractToken payload0 = some (jsTrim (verification.verificationToken.getD ""))
                · by_cases hty : normalizeType payload0.type = "challenge"
                      ∨ normalizeType payload0.type = "url_verification"
                  · by_cases hch : payload0.challenge.getD "" = ""
                    · simp [h1, hsig, hsec, hexp, hp, henc, hvt, htok, hty, hch, Except.isOk, Except.toBool]
                    · simp [h1, hsig, hsec, hexp, hp, henc, hvt, htok, hty, hch, Except.isOk, Except.toBool]
                  · simp [h1, hsig, hsec, hexp, hp, henc, hvt, htok, hty, Except.isOk, Except.toBool]
                · simp [h1, hsig, hsec, hexp, hp, henc, hvt, htok, Except.isOk, Except.toBool]

        · simp [h1, hsig, hsec, hexp, Except.isOk, Except.toBool]
    · rcases hp : prims.parseJson rawBody with _ | payload0
      · simp [h1, hsig, hp, Except.isOk, Except.toBool]
      · by_cases henc : strTruthy payload0.encrypt
        · by_cases hkey : jsTrim (verification.encryptKey.getD "") = ""
          · simp [h1, hsig, hp, henc, hkey, Except.isOk, Except.toBool]
          · rcases had : prims.aesDecrypt (jsTrim (verification.encryptKey.getD ""))
                (payload0.encrypt.getD "") with _ | dec
            · simp [h1, hsig, hp, henc, hkey, had, Except.isOk, Except.toBool]
            · rcases hp2 : prims.parseJson dec with _ | payload
              · simp [h1, hsig, hp, henc, hkey, had, hp2, Except.isOk, Except.toBool]
              · by_cases hvt : jsTrim (verification.verificationToken.getD "") = ""
                · by_cases hty : normalizeType payload.type = "challenge"
                      ∨ normalizeType payload.type = "url_verification"
                  · by_cases hch : payload.challenge.getD "" = ""
                    · simp [h1, hsig, hp, henc, hkey, had, hp2, hvt, hty, hch, Except.isOk, Except.toBool]
                    · simp [h1, hsig, hp, henc, hkey, had, hp2, hvt, hty, hch, Except.isOk, Except.toBool]
                  · simp [h1, hsig, hp, henc, hkey, had, hp2, hvt, hty, Except.isOk, Except.toBool]
                · by_cases htok : extractToken payload = some (jsTrim (verification.verificationToken.getD ""))
                  · by_cases hty : normalizeType payload.type = "challenge"
                        ∨ normalizeType payload.type = "url_verification"
                    · by_cases hch : payload.challenge.getD "" = ""
                      · simp [h1, hsig, hp, henc, hkey, had, hp2, hvt, htok, hty, hch, Except.isOk, Except.toBool]
                      · simp [h1, hsig, hp, henc, hkey, had, hp2, hvt, htok, hty, hch, Except.isOk, Except.toBool]
                    · simp [h1, hsig, hp, henc, hkey, had, hp2, hvt, htok, hty, Except.isOk, Except.toBool]
                  · simp [h1, hsig, hp, henc, hkey, had, hp2, hvt, htok, Except.isOk, Except.toBool]

        · by_cases hvt : jsTrim (verification.verificationToken.getD "") = ""
          · by_cases hty : normalizeType payload0.type = "challenge"
                ∨ normalizeType payload0.type = "url_verification"
            · by_cases hch : payload0.challenge.getD "" = ""
              · simp [h1, hsig, hp, henc, hvt, hty, hch, Except.isOk, Except.toBool]
              · simp [h1, hsig, hp, henc, hvt, hty, hch, Except.isOk, Except.toBool]
            · simp [h1, hsig, hp, henc, hvt, hty, Except.isOk, Except.toBool]
          · by_cases htok : extractToken payload0 = some (jsTrim (verification.verificationToken.getD ""))
            · by_cases hty : normalizeType payload0.type = "challenge"
                  ∨ normalizeType payload0.type = "url_verification"
              · by_cases hch : payload0.challenge.getD "" = ""
                · simp [h1, hsig, hp, henc, hvt, htok, hty, hch, Except.isOk, Except.toBool]
                · simp [h1, hsig, hp, henc, hvt, htok, hty, hch, Except.isOk, Except.toBool]
              · simp [h1, hsig, hp, henc, hvt, htok, hty, Except.isOk, Except.toBool]
            · simp [h1, hsig, hp, henc, hvt, htok, Except.isOk, Except.toBool]


/-- The raw body of the C7 test vector:
`\x7b"type":"url_verification","challenge":"c1","token":"v"\x7d`. -/
def body7 : String :=
  "\x7b\"type\":\"url_verification\",\"challenge\":\"c1\",\"token\":\"v\"\x7d"

/-- The envelope `JSON.parse` produces for `body7`. -/
def env7 : FeishuCallbackEnvelope :=
  ⟨none, some "url_verification", some "c1", some "v", none⟩

/-- Sample runtime primitives for closed evaluations, agreeing with the
real runtime on the inputs used: `JSON.parse` of `body7` yields `env7`,
`JSON.parse("x")` throws; the digest is a fixed nonempty stand-in (no
closed statement relies on a specific digest value). -/
def primsSample : CallbackPrims :=
  ⟨fun _ => "9f86d081", fun _ _ => none,
    fun s => if s = body7 then some env7 else none⟩

/-- C3 counterexample: a non-empty body that is not valid JSON, with no
signature header and nothing configured, matches none of the claim's
listed raise cases, yet `parseFeishuCallback` raises (the `JSON.parse`
throw propagates). -/
theorem parseFeishuCallback_raises_outside_list :
    ("x" : String) ≠ "" ∧
    (⟨none, none, none⟩ : FeishuSignatureHeaders).signature = none ∧
    (⟨none, none, none⟩ : FeishuEventVerification) = ⟨none, none, none⟩ ∧
    parseFeishuCallback primsSample "x" ⟨none, none, none⟩ ⟨none, none, none⟩
      = .error .invalidJson := by
  refine ⟨by decide, rfl, rfl, ?_⟩
  rfl


/-- C7 (amended): with timestamp `"1"`, nonce `"2"`, raw body `body7`,
configured secret `"s"` and verification token `"v"` (for any runtime
whose `JSON.parse` reads `body7` as `env7`): supplying the signature
`sha256Hex("12" ++ body ++ "s")` yields `Challenge "c1"`, and
supplying any other nonempty signature raises the signature-mismatch
error.  The claim's unrestricted "any other signature" fails for the
empty string: an empty signature header is JS-falsy, skips
verification entirely, and the call still returns `Challenge "c1"`
(see the counterexample). -/
theorem parseFeishuCallback_challenge_vector (prims : CallbackPrims)
    (hp : prims.parseJson body7 = some env7) (s : String) :
    parseFeishuCallback prims body7
        ⟨some (prims.sha256Hex ("12" ++ body7 ++ "s")), some "1", some "2"⟩
        ⟨some "v", none, some "s"⟩ = .ok (.challenge "c1")
    ∧ (s ≠ prims.sha256Hex ("12" ++ body7 ++ "s") → s ≠ "" →
        parseFeishuCallback prims body7 ⟨some s, some "1", some "2"⟩
          ⟨some "v", none, some "s"⟩ = .error .signatureMismatch) := by
  have harg : (jsTrim ((some "1" : Option String).getD "")
      ++ jsTrim ((some "2" : Option String).getD "") ++ body7
      ++ jsTrim ((some "s" : Option String).getD ""))
      = ("12" ++ body7 ++ "s") := rfl
  constructor
  · rw [parseFeishuCallback]
    rw [if_neg (show ¬ body7 = "" from by decide)]
    dsimp only
    rw [harg]
    by_cases hdig : prims.sha256Hex ("12" ++ body7 ++ "s") = ""
    · rw [show strTruthy (some (prims.sha256Hex ("12" ++ body7 ++ "s"))) = false from by
        simp [strTruthy, hdig]]
      simp only [Bool.false_eq_true, if_false, hp]
      rfl
    · rw [show strTruthy (some (prims.sha256Hex ("12" ++ body7 ++ "s"))) = true from by
        simp [strTruthy, hdig]]
      simp only [if_true]
      rw [if_neg (show ¬ jsTrim ((some "s" : Option String).getD "") = "" from by decide)]
      rw [if_neg (show ¬ (some (prims.sha256Hex ("12" ++ body7 ++ "s"))
          ≠ some (prims.sha256Hex ("12" ++ body7 ++ "s"))) from fun hc => hc rfl)]
      simp only [hp]
      rfl
  · intro hs hs2
    rw [parseFeishuCallback]
    rw [if_neg (show ¬ body7 = "" from by decide)]
    dsimp only
    rw [harg]
    rw [show strTruthy (some s) = true from by simp [strTruthy, hs2]]
    simp only [if_true]
    rw [if_neg (show ¬ jsTrim ((some "s" : Option String).getD "") = "" from by decide)]
    rw [if_pos (show (some s ≠ some (prims.sha256Hex ("12" ++ body7 ++ "s"))) from by
      simp [hs])]

/-- Witness for the amended C7 theorem at the sample runtime and the
concrete wrong signature `"zz"`. -/
theorem parseFeishuCallback_challenge_vector_witness :
    primsSample.parseJson body7 = some env7 ∧
    ("zz" : String) ≠ primsSample.sha256Hex ("12" ++ body7 ++ "s") ∧
    ("zz" : String) ≠ "" ∧
    parseFeishuCallback primsSample body7
        ⟨some (primsSample.sha256Hex ("12" ++ body7 ++ "s")), some "1", some "2"⟩
        ⟨some "v", none, some "s"⟩ = .ok (.challenge "c1") ∧
    parseFeishuCallback primsSample body7 ⟨some "zz", some "1", some "2"⟩
        ⟨some "v", none, some "s"⟩ = .error .signatureMismatch :=
  ⟨rfl, by decide, by decide,
    (parseFeishuCallback_challenge_vector primsSample rfl "zz").1,
    (parseFeishuCallback_challenge_vector primsSample rfl "zz").2 (by decide) (by decide)⟩

/-- C7 counterexample: the empty string is a signature other than the
correct one, yet supplying it does not raise — the empty signature
header is JS-falsy, so verification is skipped and the call returns
`Challenge "c1"`. -/
theorem parseFeishuCallback_empty_signature_accepted :
    ("" : String) ≠ primsSample.sha256Hex ("12" ++ body7 ++ "s") ∧
    parseFeishuCallback primsSample body7 ⟨some "", some "1", some "2"⟩
        ⟨some "v", none, some "s"⟩ = .ok (.challenge "c1") :=
  ⟨by decide, rfl⟩

/-- C10: when no signature header is supplied, `parseFeishuCallback`
performs no signature verification at all: its result does not depend
on the configured app secret, and it can never return either signature
error, even when an app secret is configured — an unsigned request is
accepted whenever the remaining checks pass. -/
theorem parseFeishuCallback_unsigned_skips_verification (prims : CallbackPrims)
    (rawBody : String) (timestamp nonce : Option String)
    (verificationToken encryptKey appSecret appSecret2 : Option String) :
    parseFeishuCallback prims rawBody ⟨none, timestamp, nonce⟩
        ⟨verificationToken, encryptKey, appSecret⟩
      = parseFeishuCallback prims rawBody ⟨none, timestamp, nonce⟩
          ⟨verificationToken, encryptKey, appSecret2⟩
    ∧ parseFeishuCallback prims rawBody ⟨none, timestamp, nonce⟩
        ⟨verificationToken, encryptKey, appSecret⟩ ≠ .error .signatureMismatch
    ∧ parseFeishuCallback prims rawBody ⟨none, timestamp, nonce⟩
        ⟨verificationToken, encryptKey, appSecret⟩ ≠ .error .signatureNoSecret := by
  refine ⟨rfl, ?_, ?_⟩ <;>
    · rw [parseFeishuCallback]
      by_cases h1 : rawBody = ""
      · simp [h1]
      · rw [if_neg h1]
        rw [show strTruthy (none : Option String) = false from rfl]
        simp only [Bool.false_eq_true, if_false]
        rcases hp : prims.parseJson rawBody with _ | payload0
        · simp
        · dsimp only
          by_cases henc : strTruthy payload0.encrypt
          · simp only [henc, if_true]
            by_cases hkey : jsTrim (encryptKey.getD "") = ""
            · simp [hkey]
            · rw [if_neg hkey]
              rcases had : prims.aesDecrypt (jsTrim (encryptKey.getD ""))
                  (payload0.encrypt.getD "") with _ | dec
              · simp
              · rcases hp2 : prims.parseJson dec with _ | payload
                · simp [hp2]
                · simp only [hp2]
                  try dsimp only
                  split
                  · simp
                  · split
                    · split <;> simp
                    · simp
          · simp only [henc, Bool.false_eq_true, if_false]
            try dsimp only
            split
            · simp
            · split
              · split <;> simp
              · simp

/-- Witness for the C10 theorem at a concrete unsigned request with an
app secret configured. -/
theorem parseFeishuCallback_unsigned_skips_verification_witness :
    parseFeishuCallback primsSample "x" ⟨none, none, none⟩ ⟨none, none, some "s"⟩
      = parseFeishuCallback primsSample "x" ⟨none, none, none⟩ ⟨none, none, none⟩
    ∧ parseFeishuCallback primsSample "x" ⟨none, none, none⟩ ⟨none, none, some "s"⟩
        ≠ .error .signatureMismatch
    ∧ parseFeishuCallback primsSample "x" ⟨none, none, none⟩ ⟨none, none, some "s"⟩
        ≠ .error .signatureNoSecret :=
  parseFeishuCallback_unsigned_skips_verification primsSample "x" none none none none
    (some "s") none

/-! ## Connection state machine (`src/feishu/outbound.ts`) -/

/-- ASCII bytes of a header-key string, matching the UTF-8 byte-list
representation of decoded frame headers. -/
def asciiBytes (s : String) : List Nat :=
  s.data.map (fun c => c.toNat)

/-- `HEADER_BIZ_RT = "biz_rt"`. -/
def HEADER_BIZ_RT : List Nat := asciiBytes "biz_rt"

/-- Mirrors the control-frame type lookup in `handleControlFrame`
(line 708), generalized over the key:
`frame.headers?.find(item => item.key === key)?.value ?? ""` —
`Array.prototype.find` returns the first matching element. -/
def findHeaderValue (frame : WsFrame) (key : List Nat) : List Nat :=
  (((frame.headers.getD []).find? (fun item => item.key == key)).map
    (fun item => item.value)).getD []

/-- Mirrors the header map built in `handleEventFrame` (line 735):
`new Map(frame.headers?.map(item => [item.key, item.value]) ?? [])` —
the `Map` constructor inserts the pairs in order, and a repeated key
overwrites the previous value in place. -/
def headerMapOfList (headers : List WsHeader) : List WsHeader :=
  headers.foldl (fun m h =>
    if m.any (fun e => e.key == h.key) then
      m.map (fun e => if e.key == h.key then ⟨e.key, h.value⟩ else e)
    else m ++ [h]) []

/-- Mirrors `headerMap.get(key)` on the event path (lines 736-740,
used for `message_id`, `sum`, `seq`, `trace_id` and `type`). -/
def eventHeaderGet (frame : WsFrame) (key : List Nat) : Option (List Nat) :=
  ((headerMapOfList (frame.headers.getD [])).find? (fun e => e.key == key)).map
    (fun e => e.value)

theorem findv_cons_pos (e : WsHeader) (tl : List WsHeader) (key : List Nat)
    (h : (e.key == key) = true) :
    List.find? (fun x => x.key == key) (e :: tl) = some e :=
  List.find?_cons_of_pos tl h

theorem findv_cons_neg (e : WsHeader) (tl : List WsHeader) (key : List Nat)
    (h : (e.key == key) = false) :
    List.find? (fun x => x.key == key) (e :: tl)
      = List.find? (fun x => x.key == key) tl :=
  List.find?_cons_of_neg tl (by simp [h])

theorem find_map_hit (m : List WsHeader) (h : WsHeader)
    (hany : m.any (fun e => e.key == h.key) = true) :
    ((m.map (fun e => if e.key == h.key then ⟨e.key, h.value⟩ else e)).find?
        (fun e => e.key == h.key)).map (fun e => e.value) = some h.value := by
  induction m with
  | nil => simp at hany
  | cons e tl ih =>
    simp only [List.any_cons, Bool.or_eq_true] at hany
    simp only [List.map_cons]
    by_cases hek : (e.key == h.key) = true
    · rw [if_pos hek, findv_cons_pos ⟨e.key, h.value⟩ _ h.key (by simpa using hek)]
      rfl
    · rw [if_neg (by simpa using hek), findv_cons_neg _ _ _ (by simpa using hek)]
      rcases hany with ha | ha
      · exact absurd ha hek
      · exact ih ha

theorem find_map_preserve (m : List WsHeader) (h : WsHeader) (key : List Nat)
    (hk : (h.key == key) = false) :
    ((m.map (fun e => if e.key == h.key then ⟨e.key, h.value⟩ else e)).find?
        (fun e => e.key == key)).map (fun e => e.value)
      = ((m.find? (fun e => e.key == key)).map (fun e => e.value)) := by
  induction m with
  | nil => simp
  | cons e tl ih =>
    simp only [List.map_cons]
    by_cases hek : (e.key == h.key) = true
    · have hknot : (e.key == key) = false := by
        have h1 : e.key = h.key := by simpa using hek
        have h2 : ¬ h.key = key := by simpa using hk
        simp [h1, h2]
      rw [if_pos hek, findv_cons_neg ⟨e.key, h.value⟩ _ key (by simpa using hknot),
        findv_cons_neg _ _ _ hknot]
      exact ih
    · rw [if_neg hek]
      by_cases hk2 : (e.key == key) = true
      · rw [findv_cons_pos _ _ _ hk2, findv_cons_pos _ _ _ hk2]
      · rw [findv_cons_neg _ _ _ (by simpa using hk2),
          findv_cons_neg _ _ _ (by simpa using hk2)]
        exact ih

theorem find_map_overwrite (m : List WsHeader) (h : WsHeader) (key : List Nat)
    (hany : m.any (fun e => e.key == h.key) = true) :
    ((m.map (fun e => if e.key == h.key then ⟨e.key, h.value⟩ else e)).find?
        (fun e => e.key == key)).map (fun e => e.value)
      = (if h.key == key then some h.value
         else (m.find? (fun e => e.key == key)).map (fun e => e.value)) := by
  by_cases hk : (h.key == key) = true
  · rw [if_pos hk]
    have hkey : key = h.key := by
      simp only [beq_iff_eq] at hk
      rw [hk]
    rw [hkey]
    exact find_map_hit m h hany
  · rw [if_neg (by simpa using hk)]
    exact find_map_preserve m h key (by simpa using hk)

theorem find_append_new (m : List WsHeader) (h : WsHeader) (key : List Nat)
    (hnone : m.any (fun e => e.key == h.key) = false) :
    (((m ++ [h]).find? (fun e => e.key == key)).map (fun e => e.value))
      = (if h.key == key then some h.value
         else (m.find? (fun e => e.key == key)).map (fun e => e.value)) := by
  induction m with
  | nil =>
    simp only [List.nil_append]
    by_cases hk : (h.key == key) = true
    · rw [findv_cons_pos _ _ _ hk, if_pos hk]
      rfl
    · rw [findv_cons_neg _ _ _ (by simpa using hk), if_neg (by simpa using hk)]
  | cons e tl ih =>
    simp only [List.any_cons, Bool.or_eq_false_iff] at hnone
    simp only [List.cons_append]
    by_cases hk2 : (e.key == key) = true
    · rw [findv_cons_pos _ _ _ hk2, findv_cons_pos _ _ _ hk2]
      by_cases hk : (h.key == key) = true
      · exfalso
        have h1 : e.key = key := by simpa [beq_iff_eq] using hk2
        have h2 : h.key = key := by simpa [beq_iff_eq] using hk
        have hcontra : (e.key == h.key) = true := by
          simp only [beq_iff_eq]
          rw [h1, h2]
        rw [hnone.1] at hcontra
        exact Bool.false_ne_true hcontra
      · rw [if_neg (by simpa using hk)]
    · rw [findv_cons_neg _ _ _ (by simpa using hk2),
        findv_cons_neg _ _ _ (by simpa using hk2)]
      exact ih hnone.2

theorem headerMap_get_last (headers : List WsHeader) (key : List Nat) :
    ((headerMapOfList headers).find? (fun e => e.key == key)).map (fun e => e.value)
      = ((headers.reverse.find? (fun e => e.key == key)).map (fun e => e.value)) := by
  induction headers using List.reverseRecOn with
  | nil => simp [headerMapOfList]
  | append_singleton hs h ih =>
    rw [headerMapOfList, List.foldl_append]
    simp only [List.foldl_cons, List.foldl_nil]
    rw [← headerMapOfList]
    have hrev : (hs ++ [h]).reverse = h :: hs.reverse := by
      simp
    rw [hrev]
    by_cases hany : (headerMapOfList hs).any (fun e => e.key == h.key)
    · rw [if_pos hany, find_map_overwrite _ _ _ hany, ih]
      by_cases hk : (h.key == key) = true
      · rw [if_pos hk, findv_cons_pos _ _ _ hk]
        rfl
      · rw [if_neg (by simpa using hk), findv_cons_neg _ _ _ (by simpa using hk)]
    · rw [if_neg hany, find_append_new _ _ _ (by simpa using hany), ih]
      by_cases hk : (h.key == key) = true
      · rw [if_pos hk, findv_cons_pos _ _ _ hk]
        rfl
      · rw [if_neg (by simpa using hk), findv_cons_neg _ _ _ (by simpa using hk)]

/-- C4 (amended): for a decoded frame whose headers repeat a key, the
two lookup paths disagree.  The control-frame `type` lookup
(`handleControlFrame`) uses `Array.prototype.find` and resolves to the
first occurrence; the event-frame lookups (`type`, `message_id`,
`sum`, `seq`, `trace_id` in `handleEventFrame`) go through
`new Map(...)`, whose constructor lets a repeated key overwrite the
earlier value, so they resolve to the last occurrence. -/
theorem header_lookup_first_vs_last (frame : WsFrame) (key : List Nat) :
    findHeaderValue frame key
      = (((frame.headers.getD []).find? (fun item => item.key == key)).map
          (fun item => item.value)).getD []
    ∧ eventHeaderGet frame key
      = (((frame.headers.getD []).reverse.find? (fun e => e.key == key)).map
          (fun e => e.value)) :=
  ⟨rfl, headerMap_get_last _ _⟩

/-- A DATA frame whose headers carry the key `sum` twice, with values
`"2"` then `"3"`. -/
def dupSumFrame : WsFrame :=
  { SeqID := 0, LogID := 0, service := 0, method := 1,
    headers := some [⟨asciiBytes "sum", asciiBytes "2"⟩,
                     ⟨asciiBytes "sum", asciiBytes "3"⟩],
    payloadEncoding := none, payloadType := none, payload := none, LogIDNew := none }

/-- C4 counterexample: on a frame with a duplicated `sum` header the
event-frame lookup yields the value of the last occurrence (`"3"`),
not the first (`"2"`) as the claim states; the control-frame lookup
does yield the first. -/
theorem event_header_get_not_first :
    findHeaderValue dupSumFrame (asciiBytes "sum") = asciiBytes "2" ∧
    eventHeaderGet dupSumFrame (asciiBytes "sum") = some (asciiBytes "3") ∧
    asciiBytes "3" ≠ asciiBytes "2" :=
  ⟨rfl, rfl, by decide⟩

/-- Handler outcome in `handleEventFrame`: the `try/catch` leaves
`response` undefined when the handler throws (the error is logged,
not propagated). -/
inductive HandlerOutcome where
  | threw
  | returned (response : Option JsonValue)

/-- JS truthiness of `response : JsonValue | void` as tested by
`if (response)`. -/
def jsonTruthy : Option JsonValue → Bool
  | none => false
  | some .null => false
  | some (.bool b) => b
  | some (.num q) => q != 0
  | some (.str s) => s != ""
  | some (.arr _) => true
  | some (.obj _) => true

/-- Mirrors the response payload `{code: number, data?: string}` of
`handleEventFrame`. -/
structure RespPayload where
  code : Nat
  data : Option String
deriving DecidableEq, Repr

/-- Mirrors the response construction of `handleEventFrame` (lines
758-779): from the handler outcome and the elapsed `end - start`
milliseconds, build the `{code: STATUS_OK, data?}` payload (`data` is
set only for a truthy handler result, to the base64 of its JSON
serialization — `stringifyB64`, a runtime parameter) and the frame
passed to `sendFrame`: a spread of the inbound frame with one
`biz_rt` header appended (value `String(end - start)`) and the payload
replaced by the serialized response (`respBytes` stands for
`TextEncoder.encode(JSON.stringify(respPayload))`). -/
def eventResponse (stringifyB64 : JsonValue → String)
    (respBytes : RespPayload → List Nat) (frame : WsFrame)
    (outcome : HandlerOutcome) (rtMs : Nat) : RespPayload × WsFrame :=
  let response : Option JsonValue :=
    match outcome with
    | .threw => none
    | .returned r => r
  let respPayload : RespPayload :=
    { code := 200,
      data :=
        match response with
        | some v => if jsonTruthy (some v) then some (stringifyB64 v) else none
        | none => none }
  let headers := (frame.headers.getD []) ++ [⟨HEADER_BIZ_RT, asciiBytes (toString rtMs)⟩]
  (respPayload, { frame with headers := some headers, payload := some (respBytes respPayload) })

/-- C5: when the registered handler throws, the error is caught — the
response is built exactly as for a handler that returned nothing — and
a response frame is still produced: its JSON payload carries the fixed
success code 200 and no data field, and the frame is the inbound frame
(identity fields and every other field preserved by the spread) with
its headers plus one appended `biz_rt` header holding the elapsed
milliseconds. -/
theorem eventResponse_handler_threw (stringifyB64 : JsonValue → String)
    (respBytes : RespPayload → List Nat) (frame : WsFrame) (rtMs : Nat) :
    eventResponse stringifyB64 respBytes frame .threw rtMs
      = (⟨200, none⟩,
         { frame with
             headers := some ((frame.headers.getD [])
               ++ [⟨HEADER_BIZ_RT, asciiBytes (toString rtMs)⟩]),
             payload := some (respBytes ⟨200, none⟩) })
    ∧ eventResponse stringifyB64 respBytes frame .threw rtMs
      = eventResponse stringifyB64 respBytes frame (.returned none) rtMs :=
  ⟨rfl, rfl⟩

/-- Mirrors `WsConnectConfig` of `outbound.ts`; numeric fields are JS
numbers, modelled as rationals (exact arithmetic — every value in play
is an integer count of seconds or milliseconds). -/
structure WsConnectConfig where
  connectUrl : String
  pingInterval : ℚ
  reconnectCount : ℚ
  reconnectInterval : ℚ
  reconnectNonce : ℚ
  deviceId : String
  serviceId : String
deriving DecidableEq, Repr

/-- The pong payload parsed in `handleControlFrame` (lines 712-717);
absent JSON fields are `none`. -/
structure PongPayload where
  PingInterval : Option ℚ
  ReconnectCount : Option ℚ
  ReconnectInterval : Option ℚ
  ReconnectNonce : Option ℚ
deriving DecidableEq, Repr

/-- Mirrors the `wsConfig` update of `handleControlFrame` (lines
719-727), applied when a pong control frame carries a JSON-parseable
payload and a config is present: the three duration fields fall back
to `current/1000` and are multiplied by 1000; `reconnectCount` is
taken as-is. -/
def applyPongConfig (cfg : WsConnectConfig) (payload : PongPayload) : WsConnectConfig :=
  { cfg with
    pingInterval := (payload.PingInterval.getD (cfg.pingInterval / 1000)) * 1000
    reconnectCount := payload.ReconnectCount.getD cfg.reconnectCount
    reconnectInterval := (payload.ReconnectInterval.getD (cfg.reconnectInterval / 1000)) * 1000
    reconnectNonce := (payload.ReconnectNonce.getD (cfg.reconnectNonce / 1000)) * 1000 }

/-- C8 (amended): on a parseable pong payload, each of the three
duration fields (ping interval, reconnect interval, reconnect jitter)
is set to the payload value converted seconds→milliseconds when
present and keeps its prior value when absent; the reconnect count is
set to the payload value UNCONVERTED when present (the claim's
seconds→ms conversion does not apply to it — see the counterexample)
and keeps its prior value when absent; connect URL, device id and
service id are unchanged. -/
theorem applyPongConfig_update (cfg : WsConnectConfig) (p : PongPayload) :
    ((∀ x, p.PingInterval = some x → (applyPongConfig cfg p).pingInterval = x * 1000) ∧
     (p.PingInterval = none → (applyPongConfig cfg p).pingInterval = cfg.pingInterval)) ∧
    ((∀ x, p.ReconnectCount = some x → (applyPongConfig cfg p).reconnectCount = x) ∧
     (p.ReconnectCount = none → (applyPongConfig cfg p).reconnectCount = cfg.reconnectCount)) ∧
    ((∀ x, p.ReconnectInterval = some x →
        (applyPongConfig cfg p).reconnectInterval = x * 1000) ∧
     (p.ReconnectInterval = none →
        (applyPongConfig cfg p).reconnectInterval = cfg.reconnectInterval)) ∧
    ((∀ x, p.ReconnectNonce = some x → (applyPongConfig cfg p).reconnectNonce = x * 1000) ∧
     (p.ReconnectNonce = none → (applyPongConfig cfg p).reconnectNonce = cfg.reconnectNonce)) ∧
    (applyPongConfig cfg p).connectUrl = cfg.connectUrl ∧
    (applyPongConfig cfg p).deviceId = cfg.deviceId ∧
    (applyPongConfig cfg p).serviceId = cfg.serviceId := by
  refine ⟨⟨?_, ?_⟩, ⟨?_, ?_⟩, ⟨?_, ?_⟩, ⟨?_, ?_⟩, rfl, rfl, rfl⟩
  · intro x hx
    simp [applyPongConfig, hx]
  · intro hx
    simp only [applyPongConfig, hx, Option.getD_none]
    rw [div_mul_cancel₀ _ (by norm_num : (1000 : ℚ) ≠ 0)]
  · intro x hx
    simp [applyPongConfig, hx]
  · intro hx
    simp [applyPongConfig, hx]
  · intro x hx
    simp [applyPongConfig, hx]
  · intro hx
    simp only [applyPongConfig, hx, Option.getD_none]
    rw [div_mul_cancel₀ _ (by norm_num : (1000 : ℚ) ≠ 0)]
  · intro x hx
    simp [applyPongConfig, hx]
  · intro hx
    simp only [applyPongConfig, hx, Option.getD_none]
    rw [div_mul_cancel₀ _ (by norm_num : (1000 : ℚ) ≠ 0)]

/-- A concrete session configuration for closed evaluations. -/
def cfgSample : WsConnectConfig :=
  ⟨"wss://x", 120000, 3, 120000, 30000, "5", "9"⟩

/-- C8 counterexample: a pong payload carrying `ReconnectCount: 5`
sets the reconnect count to 5, not to the seconds→ms conversion 5000
the claim demands for all four fields. -/
theorem applyPongConfig_count_not_ms :
    (applyPongConfig cfgSample ⟨none, some 5, none, none⟩).reconnectCount = 5 ∧
    ((5 : ℚ) ≠ 5 * 1000) := by
  constructor
  · rfl
  · norm_num

/-- Witness for the amended C8 theorem at a concrete configuration and
payload. -/
theorem applyPongConfig_update_witness :
    ((∀ x, (some (30 : ℚ) : Option ℚ) = some x →
        (applyPongConfig cfgSample ⟨some 30, some 5, none, none⟩).pingInterval = x * 1000) ∧
     ((some (30 : ℚ) : Option ℚ) = none →
        (applyPongConfig cfgSample ⟨some 30, some 5, none, none⟩).pingInterval
          = cfgSample.pingInterval)) ∧
    ((∀ x, (some (5 : ℚ) : Option ℚ) = some x →
        (applyPongConfig cfgSample ⟨some 30, some 5, none, none⟩).reconnectCount = x) ∧
     ((some (5 : ℚ) : Option ℚ) = none →
        (applyPongConfig cfgSample ⟨some 30, some 5, none, none⟩).reconnectCount
          = cfgSample.reconnectCount)) ∧
    ((∀ x, (none : Option ℚ) = some x →
        (applyPongConfig cfgSample ⟨some 30, some 5, none, none⟩).reconnectInterval = x * 1000) ∧
     ((none : Option ℚ) = none →
        (applyPongConfig cfgSample ⟨some 30, some 5, none, none⟩).reconnectInterval
          = cfgSample.reconnectInterval)) ∧
    ((∀ x, (none : Option ℚ) = some x →
        (applyPongConfig cfgSample ⟨some 30, some 5, none, none⟩).reconnectNonce = x * 1000) ∧
     ((none : Option ℚ) = none →
        (applyPongConfig cfgSample ⟨some 30, some 5, none, none⟩).reconnectNonce
          = cfgSample.reconnectNonce)) ∧
    (applyPongConfig cfgSample ⟨some 30, some 5, none, none⟩).connectUrl
      = cfgSample.connectUrl ∧
    (applyPongConfig cfgSample ⟨some 30, some 5, none, none⟩).deviceId = cfgSample.deviceId ∧
    (applyPongConfig cfgSample ⟨some 30, some 5, none, none⟩).serviceId
      = cfgSample.serviceId :=
  applyPongConfig_update cfgSample ⟨some 30, some 5, none, none⟩

/-- Mirrors `getReconnectDelay` (lines 569-574): `Math.random()` is
the `random` parameter, which the runtime draws from `[0, 1)`. -/
def getReconnectDelay (wsConfig : Option WsConnectConfig) (random : ℚ) : ℚ :=
  ((wsConfig.map (fun c => c.reconnectInterval)).getD 120000)
    + random * ((wsConfig.map (fun c => c.reconnectNonce)).getD 30000)

/-- C9: for every session configuration with a nonnegative jitter and
every value of the random draw in `[0, 1)`, the reconnect delay is at
least the reconnect interval and at most interval + jitter; the delay
does not depend on any attempt counter (the function takes none) — a
jittered constant-floor backoff, not exponential. -/
theorem getReconnectDelay_bounds (wsConfig : Option WsConnectConfig) (random : ℚ)
    (h0 : 0 ≤ random) (h1 : random < 1)
    (hj : 0 ≤ (wsConfig.map (fun c => c.reconnectNonce)).getD 30000) :
    ((wsConfig.map (fun c => c.reconnectInterval)).getD 120000)
        ≤ getReconnectDelay wsConfig random
    ∧ getReconnectDelay wsConfig random
        ≤ ((wsConfig.map (fun c => c.reconnectInterval)).getD 120000)
          + ((wsConfig.map (fun c => c.reconnectNonce)).getD 30000) := by
  rw [getReconnectDelay]
  constructor
  · nlinarith [mul_nonneg h0 hj]
  · nlinarith [mul_le_of_le_one_left hj (le_of_lt h1)]

/-- Witness for the C9 theorem: the concrete configuration and the
draw 1/2. -/
theorem getReconnectDelay_bounds_witness :
    (0 : ℚ) ≤ 1 / 2 ∧ (1 / 2 : ℚ) < 1 ∧
    (0 : ℚ) ≤ ((some cfgSample).map (fun c => c.reconnectNonce)).getD 30000 ∧
    (((some cfgSample).map (fun c => c.reconnectInterval)).getD 120000
        ≤ getReconnectDelay (some cfgSample) (1 / 2)
      ∧ getReconnectDelay (some cfgSample) (1 / 2)
        ≤ (((some cfgSample).map (fun c => c.reconnectInterval)).getD 120000)
          + (((some cfgSample).map (fun c => c.reconnectNonce)).getD 30000)) :=
  ⟨by norm_num, by norm_num, by norm_num [cfgSample],
    getReconnectDelay_bounds (some cfgSample) (1 / 2) (by norm_num) (by norm_num)
      (by norm_num [cfgSample])⟩
